/-
  Verification development for the PCjs x86 CPU core helpers
  (src/modules/pcjs/lib/x86.js: the X86 constants object and the
  X86.fnXXX opcode helper functions).

  Shallow embedding conventions:
  - JavaScript numbers holding machine words are modelled as Nat; where a
    JS bitwise operator performs a ToInt32 conversion whose effect matters,
    the embedding spells out the equivalent Nat/Int computation and a
    comment justifies the translation.
  - Signed quantities (the IMUL helpers) are modelled as Int.
  - Mutable CPU state is passed explicitly through small state records;
    each record holds exactly the fields the embedded helpers touch.
  - Helper routines of the surrounding CPU object (x86cpu.js, x86seg.js,
    x86ops.js) are not part of the covered source; where one is needed it
    is either abstracted into a parameter or modelled from the spec, and
    its doc comment says so.
-/
import Mathlib

namespace PCjs

/-- ADDR_INVALID sentinel (x86.js line 60): the source uses -1 and compares
effective addresses with strict equality, so regEA is modelled as Int. -/
def ADDR_INVALID : Int := -1

/-- Exception vector numbers from the X86.EXCEPTION table (x86.js lines 86-103). -/
def DIV_ERR : Nat := 0x00

/-- UD_FAULT vector (invalid opcode), X86.EXCEPTION (x86.js line 93). -/
def UD_FAULT : Nat := 0x06

/-- DF_FAULT vector (double fault), X86.EXCEPTION (x86.js line 95). -/
def DF_FAULT : Nat := 0x08

/-- Selector RPL mask, X86.SEL.RPL (x86.js line 175). -/
def SEL_RPL : Nat := 0x0003

/-- Selector index mask, X86.SEL.MASK (x86.js line 177). -/
def SEL_MASK : Nat := 0xFFF8

/-- Conforming code segment access bits, X86.DESC.ACC.TYPE.CODE_CONFORMING
(x86.js line 225): SEG 0x1000 with CODE 0x0800 and CONFORMING 0x0400. -/
def CODE_CONFORMING : Nat := 0x1C00

/-- Width bit of a byte result, X86.RESULT.BYTE (x86.js line 394). -/
def RESULT_BYTE : Nat := 0x80

/-- Width bit of a word result, X86.RESULT.WORD (x86.js line 395). -/
def RESULT_WORD : Nat := 0x8000

/-- Union of the three width bits, X86.RESULT.TYPE (x86.js line 397). -/
def RESULT_TYPE : Nat := 0x80008080

/-- All six cached-flag bits, X86.RESULT.ALL (x86.js line 404). -/
def RESULT_ALL : Nat := 0x3F

/-- Lazy flag cache of the CPU: the five 32-bit result registers described
in the X86.RESULT comment (x86.js lines 335-407) and spec section 3. -/
structure ResultCache where
  resultDst : Nat
  resultSrc : Nat
  resultArith : Nat
  resultLogic : Nat
  resultType : Nat
deriving DecidableEq, Repr

/-- Modelled from the spec: setArithResult of x86cpu.js is not part of the
covered source.  Per the X86.RESULT comment (x86.js lines 368-373) and spec
section 3, an added arithmetic result caches dst, src and the unmasked
result value in the five result registers, with resultLogic mirroring the
arithmetic value. -/
def setArithResult (dst src value type : Nat) : ResultCache :=
  ⟨dst, src, value, value, type⟩

/-- Width component of the cached type: the resultType holds both a width
bit and the cached-flag bits (x86.js lines 359-366); the flag formulas are
masked by the width bit, extracted with X86.RESULT.TYPE. -/
def typeMask (c : ResultCache) : Nat :=
  c.resultType &&& RESULT_TYPE

/-- Sum of the eight low bits of a number (used for byte parity). -/
def bitSum8 (n : Nat) : Nat :=
  n % 2 + n / 2 % 2 + n / 4 % 2 + n / 8 % 2 + n / 16 % 2 + n / 32 % 2 + n / 64 % 2 + n / 128 % 2

/-- Modelled from the spec: getCF of x86cpu.js is not part of the covered
source; formula from the X86.RESULT comment (x86.js line 352) and spec
section 3, masked by the width type. -/
def getCF (c : ResultCache) : Bool :=
  (c.resultDst ^^^ ((c.resultDst ^^^ c.resultSrc) &&& (c.resultSrc ^^^ c.resultArith))) &&& typeMask c != 0

/-- Modelled from the spec: getPF of x86cpu.js is not part of the covered
source; spec section 3: PF is the (even) parity of the low byte of
resultLogic. -/
def getPF (c : ResultCache) : Bool :=
  bitSum8 (c.resultLogic &&& 0xFF) % 2 == 0

/-- Modelled from the spec: getAF of x86cpu.js is not part of the covered
source; formula from the X86.RESULT comment (x86.js line 354) and spec
section 3. -/
def getAF (c : ResultCache) : Bool :=
  (c.resultArith ^^^ (c.resultDst ^^^ c.resultSrc)) &&& 0x10 != 0

/-- Modelled from the spec: getZF of x86cpu.js is not part of the covered
source; formula from the X86.RESULT comment (x86.js line 355) and spec
section 3, masked by the width type. -/
def getZF (c : ResultCache) : Bool :=
  c.resultLogic &&& ((typeMask c - 1) ||| typeMask c) == 0

/-- Modelled from the spec: getSF of x86cpu.js is not part of the covered
source; formula from the X86.RESULT comment (x86.js line 356) and spec
section 3, masked by the width type. -/
def getSF (c : ResultCache) : Bool :=
  c.resultLogic &&& typeMask c != 0

/-- Modelled from the spec: getOF of x86cpu.js is not part of the covered
source; formula from the X86.RESULT comment (x86.js line 357) and spec
section 3, masked by the width type. -/
def getOF (c : ResultCache) : Bool :=
  ((c.resultDst ^^^ c.resultArith) &&& (c.resultSrc ^^^ c.resultArith)) &&& typeMask c != 0

/-- X86.fnADDb (x86.js lines 618-624): byte ADD.  The source computes
b = (dst + src) OR 0; for byte operands the sum is far below 2 to the 31
so the ToInt32 is the identity and b is the plain Nat sum.  The helper
returns b AND 0xff and caches (dst, src, b) with type BYTE plus ALL.
Cycle accounting is omitted (it touches no architectural state). -/
def fnADDb (dst src : Nat) : Nat × ResultCache :=
  let b := dst + src
  (b &&& 0xFF, setArithResult dst src b (RESULT_BYTE ||| RESULT_ALL))

/-- Modelled from the spec: reference Intel carry condition for byte ADD
(spec section 8): CF is set exactly when the unsigned sum overflows 8 bits. -/
def intelCF8 (a b : Nat) : Prop := 2 ^ 8 ≤ a + b

/-- Modelled from the spec: reference Intel parity condition: PF is set when
the low byte of the result has an even number of set bits. -/
def intelPF8 (a b : Nat) : Prop := bitSum8 ((a + b) % 2 ^ 8) % 2 = 0

/-- Modelled from the spec: reference Intel auxiliary-carry condition: AF is
set when there is a carry out of bit 3 of the addition. -/
def intelAF8 (a b : Nat) : Prop := 2 ^ 4 ≤ a % 2 ^ 4 + b % 2 ^ 4

/-- Modelled from the spec: reference Intel zero condition for byte ADD. -/
def intelZF8 (a b : Nat) : Prop := (a + b) % 2 ^ 8 = 0

/-- Modelled from the spec: reference Intel sign condition for byte ADD. -/
def intelSF8 (a b : Nat) : Prop := 2 ^ 7 ≤ (a + b) % 2 ^ 8

/-- Modelled from the spec: reference Intel signed-overflow condition for
byte ADD: both operands share a sign and the 8-bit result has the other. -/
def intelOF8 (a b : Nat) : Prop :=
  (a % 2 ^ 8 < 2 ^ 7 ∧ b % 2 ^ 8 < 2 ^ 7 ∧ 2 ^ 7 ≤ (a + b) % 2 ^ 8) ∨
  (2 ^ 7 ≤ a % 2 ^ 8 ∧ 2 ^ 7 ≤ b % 2 ^ 8 ∧ (a + b) % 2 ^ 8 < 2 ^ 7)

/-- Carry formula correctness for byte addition: bit 7 of the cached-word
expression equals the unsigned carry out of bit 7. -/
lemma addb_cf_bridge (a b : Nat) (ha : a < 2 ^ 8) (hb : b < 2 ^ 8) :
    ((a ^^^ ((a ^^^ b) &&& (b ^^^ (a + b)))) &&& 2 ^ 7 ≠ 0) ↔ intelCF8 a b := by
  rw [Nat.and_two_pow]
  unfold intelCF8
  cases h1 : Nat.testBit a 7 <;> cases h2 : Nat.testBit b 7 <;> cases h3 : Nat.testBit (a + b) 7 <;>
    simp only [Nat.testBit_xor, Nat.testBit_and, h1, h2, h3] <;>
    simp only [Nat.testBit_to_div_mod, decide_eq_true_eq, decide_eq_false_iff_not] at h1 h2 h3 <;>
    simp <;> omega

/-- Overflow formula correctness for byte addition. -/
lemma addb_of_bridge (a b : Nat) :
    (((a ^^^ (a + b)) &&& (b ^^^ (a + b))) &&& 2 ^ 7 ≠ 0) ↔ intelOF8 a b := by
  rw [Nat.and_two_pow]
  unfold intelOF8
  cases h1 : Nat.testBit a 7 <;> cases h2 : Nat.testBit b 7 <;> cases h3 : Nat.testBit (a + b) 7 <;>
    simp only [Nat.testBit_xor, Nat.testBit_and, h1, h2, h3] <;>
    simp only [Nat.testBit_to_div_mod, decide_eq_true_eq, decide_eq_false_iff_not] at h1 h2 h3 <;>
    simp <;> omega

/-- Auxiliary-carry formula correctness for byte addition. -/
lemma addb_af_bridge (a b : Nat) :
    (((a + b) ^^^ (a ^^^ b)) &&& 2 ^ 4 ≠ 0) ↔ intelAF8 a b := by
  rw [Nat.and_two_pow]
  unfold intelAF8
  cases h1 : Nat.testBit a 4 <;> cases h2 : Nat.testBit b 4 <;> cases h3 : Nat.testBit (a + b) 4 <;>
    simp only [Nat.testBit_xor, Nat.testBit_and, h1, h2, h3] <;>
    simp only [Nat.testBit_to_div_mod, decide_eq_true_eq, decide_eq_false_iff_not] at h1 h2 h3 <;>
    simp <;> omega

/-- Sign formula correctness for byte addition. -/
lemma addb_sf_bridge (a b : Nat) (ha : a < 2 ^ 8) (hb : b < 2 ^ 8) :
    ((a + b) &&& 2 ^ 7 ≠ 0) ↔ intelSF8 a b := by
  rw [Nat.and_two_pow]
  unfold intelSF8
  cases h3 : Nat.testBit (a + b) 7 <;>
    simp only [Nat.testBit_to_div_mod, decide_eq_true_eq, decide_eq_false_iff_not] at h3 <;>
    simp [h3] <;> omega

/-- Width mask of the byte-ADD cache evaluates to bit 7. -/
lemma typeMask_byte_all (c : ResultCache) (h : c.resultType = RESULT_BYTE ||| RESULT_ALL) :
    typeMask c = 2 ^ 7 := by
  rw [typeMask, h]
  decide

/-- C1. For every pair of byte operands, executing ADD at width 8 produces
the flag values given by the reference formulas (CF, PF, AF, ZF, SF, OF
computed from resultDst, resultSrc, resultArith, resultLogic masked by the
width type); in particular, for AL equal 0x50, ADD AL with 0x50 yields
AL equal 0xA0 with CF 0, OF 1, SF 1, ZF 0, PF 1, AF 0. -/
theorem fnADDb_flags_conform :
    (∀ a b : Nat, a < 2 ^ 8 → b < 2 ^ 8 →
      (fnADDb a b).1 = (a + b) % 2 ^ 8 ∧
      (getCF (fnADDb a b).2 = true ↔ intelCF8 a b) ∧
      (getPF (fnADDb a b).2 = true ↔ intelPF8 a b) ∧
      (getAF (fnADDb a b).2 = true ↔ intelAF8 a b) ∧
      (getZF (fnADDb a b).2 = true ↔ intelZF8 a b) ∧
      (getSF (fnADDb a b).2 = true ↔ intelSF8 a b) ∧
      (getOF (fnADDb a b).2 = true ↔ intelOF8 a b)) ∧
    ((fnADDb 0x50 0x50).1 = 0xA0 ∧
      getCF (fnADDb 0x50 0x50).2 = false ∧ getOF (fnADDb 0x50 0x50).2 = true ∧
      getSF (fnADDb 0x50 0x50).2 = true ∧ getZF (fnADDb 0x50 0x50).2 = false ∧
      getPF (fnADDb 0x50 0x50).2 = true ∧ getAF (fnADDb 0x50 0x50).2 = false) := by
  constructor
  · intro a b ha hb
    have hmask : typeMask (fnADDb a b).2 = 2 ^ 7 := typeMask_byte_all _ rfl
    refine ⟨?_, ?_, ?_, ?_, ?_, ?_, ?_⟩
    · show (a + b) &&& 0xFF = (a + b) % 2 ^ 8
      rw [show (0xFF : Nat) = 2 ^ 8 - 1 from rfl, Nat.and_pow_two_sub_one_eq_mod]
    · rw [getCF, hmask]
      simp only [bne_iff_ne, ne_eq]
      exact addb_cf_bridge a b ha hb
    · rw [getPF]
      show ((bitSum8 ((a + b) &&& 0xFF) % 2 == 0) = true) ↔ _
      rw [show (0xFF : Nat) = 2 ^ 8 - 1 from rfl, Nat.and_pow_two_sub_one_eq_mod]
      simp [intelPF8]
    · rw [getAF]
      simp only [bne_iff_ne, ne_eq]
      exact addb_af_bridge a b
    · rw [getZF, hmask]
      show (((a + b) &&& ((2 ^ 7 - 1) ||| 2 ^ 7) == 0) = true) ↔ _
      rw [show ((2 ^ 7 - 1 : Nat) ||| 2 ^ 7) = 2 ^ 8 - 1 by decide, Nat.and_pow_two_sub_one_eq_mod]
      simp [intelZF8]
    · rw [getSF, hmask]
      simp only [bne_iff_ne, ne_eq]
      exact addb_sf_bridge a b ha hb
    · rw [getOF, hmask]
      simp only [bne_iff_ne, ne_eq]
      exact addb_of_bridge a b
  · decide

/-- Witness for C1: the quantified part applied at the concrete operands of
the boundary scenario. -/
theorem fnADDb_flags_conform_witness :
    (fnADDb 0x50 0x50).1 = (0x50 + 0x50) % 2 ^ 8 ∧
      (getOF (fnADDb 0x50 0x50).2 = true ↔ intelOF8 0x50 0x50) := by
  have h := fnADDb_flags_conform.1 0x50 0x50 (by decide) (by decide)
  exact ⟨h.1, h.2.2.2.2.2.2⟩

/-- Shift-right distributes over bitwise or. -/
lemma or_shiftRight (x y i : Nat) : (x ||| y) >>> i = (x >>> i) ||| (y >>> i) := by
  apply Nat.eq_of_testBit_eq
  intro j
  simp

/-- Shift-right distributes over bitwise and. -/
lemma and_shiftRight (x y i : Nat) : (x &&& y) >>> i = (x >>> i) &&& (y >>> i) := by
  apply Nat.eq_of_testBit_eq
  intro j
  simp

/-- Observable arithmetic flag values.  The source caches flags lazily; this
record models the materialised values an observer reads, which is all the
helper-level claims are about.  The overflow flag is named ofv. -/
structure Flags where
  cf : Bool
  pf : Bool
  af : Bool
  zf : Bool
  sf : Bool
  ofv : Bool
deriving DecidableEq, Repr

/-- Modelled from the spec: setZF of x86cpu.js is not part of the covered
source; per the spec flag engine it changes only ZF. -/
def setZF (f : Flags) : Flags := { f with zf := true }

/-- Modelled from the spec: clearZF of x86cpu.js is not part of the covered
source; per the spec flag engine it changes only ZF. -/
def clearZF (f : Flags) : Flags := { f with zf := false }

/-- X86.fnARPL (x86.js lines 696-706).  The source computes
dst = (dst AND NOT SEL.RPL) OR (src AND SEL.RPL) when dst's RPL is below
src's; in JavaScript the NOT of 3 is the 32-bit mask 0xFFFFFFFC.  Cycle
accounting is omitted. -/
def fnARPL (f : Flags) (dst src : Nat) : Nat × Flags :=
  if dst &&& SEL_RPL < src &&& SEL_RPL then
    ((dst &&& 0xFFFFFFFC) ||| (src &&& SEL_RPL), setZF f)
  else
    (dst, clearZF f)

/-- Low two bits of the ARPL merge come from src. -/
lemma arpl_merge_low (d s : Nat) :
    ((d &&& 0xFFFFFFFC) ||| (s &&& 3)) % 2 ^ 2 = s % 2 ^ 2 := by
  have h3 : (3 : Nat) = 2 ^ 2 - 1 := rfl
  rw [← Nat.and_pow_two_sub_one_eq_mod, ← Nat.and_pow_two_sub_one_eq_mod, ← h3]
  rw [Nat.and_distrib_right, Nat.and_assoc, Nat.and_assoc]
  rw [show ((0xFFFFFFFC : Nat) &&& 3) = 0 from rfl, show ((3 : Nat) &&& 3) = 3 from rfl]
  simp

/-- Upper bits of the ARPL merge come from dst. -/
lemma arpl_merge_high (d s : Nat) (hd : d < 2 ^ 16) :
    ((d &&& 0xFFFFFFFC) ||| (s &&& 3)) / 2 ^ 2 = d / 2 ^ 2 := by
  rw [← Nat.shiftRight_eq_div_pow, ← Nat.shiftRight_eq_div_pow]
  rw [or_shiftRight, and_shiftRight]
  rw [show ((0xFFFFFFFC : Nat) >>> 2) = 2 ^ 30 - 1 from rfl]
  have h1 : (s &&& 3) >>> 2 = 0 := by
    have : s &&& 3 < 2 ^ 2 := Nat.and_lt_two_pow s (by decide)
    rw [Nat.shiftRight_eq_div_pow]
    omega
  have h2 : d >>> 2 &&& 2 ^ 30 - 1 = d >>> 2 := by
    apply Nat.and_pow_two_sub_one_of_lt_two_pow
    rw [Nat.shiftRight_eq_div_pow]
    omega
  rw [h1, h2]
  simp

/-- C10. ARPL returns dst with only its RPL field (low two bits) replaced by
src's RPL and sets ZF when dst's RPL is strictly below src's RPL; otherwise
it returns dst unchanged and clears ZF; in both cases bits 2 through 15 of
dst are never altered and no flag other than ZF is modified. -/
theorem fnARPL_rpl_zf (f : Flags) (dst src : Nat) (hd : dst < 2 ^ 16) :
    (dst % 2 ^ 2 < src % 2 ^ 2 → (fnARPL f dst src).1 % 2 ^ 2 = src % 2 ^ 2) ∧
    (¬ dst % 2 ^ 2 < src % 2 ^ 2 → (fnARPL f dst src).1 = dst) ∧
    (fnARPL f dst src).1 / 2 ^ 2 = dst / 2 ^ 2 ∧
    ((fnARPL f dst src).2.zf = true ↔ dst % 2 ^ 2 < src % 2 ^ 2) ∧
    (fnARPL f dst src).2.cf = f.cf ∧ (fnARPL f dst src).2.pf = f.pf ∧
    (fnARPL f dst src).2.af = f.af ∧ (fnARPL f dst src).2.sf = f.sf ∧
    (fnARPL f dst src).2.ofv = f.ofv := by
  have hmod : ∀ x : Nat, x &&& SEL_RPL = x % 2 ^ 2 := by
    intro x
    rw [show SEL_RPL = 2 ^ 2 - 1 from rfl, Nat.and_pow_two_sub_one_eq_mod]
  have hsel : ∀ x : Nat, x &&& SEL_RPL = x &&& 3 := fun _ => rfl
  by_cases h : dst % 2 ^ 2 < src % 2 ^ 2
  · have hcond : dst &&& SEL_RPL < src &&& SEL_RPL := by
      rw [hmod, hmod]
      exact h
    have hval : (fnARPL f dst src).1 = (dst &&& 0xFFFFFFFC) ||| (src &&& SEL_RPL) := by
      rw [fnARPL, if_pos hcond]
    have hflg : (fnARPL f dst src).2 = setZF f := by
      rw [fnARPL, if_pos hcond]
    rw [hval, hflg]
    exact ⟨fun _ => arpl_merge_low dst src, fun hc => absurd h hc,
      arpl_merge_high dst src hd, by simp only [setZF]; simpa using h, rfl, rfl, rfl, rfl, rfl⟩
  · have hcond : ¬ dst &&& SEL_RPL < src &&& SEL_RPL := by
      rw [hmod, hmod]
      exact h
    have hval : (fnARPL f dst src).1 = dst := by
      rw [fnARPL, if_neg hcond]
    have hflg : (fnARPL f dst src).2 = clearZF f := by
      rw [fnARPL, if_neg hcond]
    rw [hval, hflg]
    exact ⟨fun hc => absurd hc h, fun _ => rfl, rfl, by simp only [clearZF]; simpa using h, rfl, rfl, rfl, rfl, rfl⟩

/-- Witness for C10 at a concrete selector pair. -/
theorem fnARPL_rpl_zf_witness :
    (fnARPL ⟨false, false, false, false, false, false⟩ 0x1230 0x0003).1 / 2 ^ 2 = 0x1230 / 2 ^ 2 :=
  (fnARPL_rpl_zf ⟨false, false, false, false, false, false⟩ 0x1230 0x0003 (by decide)).2.2.1

/-- State for the PUSH helper: the CPU model number and the words pushed so
far (most recent first).  pushWord of x86cpu.js is not part of the covered
source; the claim concerns only which value is pushed, so the push is
modelled as a list cons. -/
structure PushState where
  model : Nat
  pushed : List Nat
deriving DecidableEq, Repr

/-- Modelled from the spec: pushWord decrements SP and stores the word; only
the stored word is observable here. -/
def pushWord (st : PushState) (w : Nat) : PushState :=
  { st with pushed := w :: st.pushed }

/-- X86.fnPUSHw (x86.js lines 1842-1864).  pushsp is whether OPFLAG.PUSHSP
was set by the decoder (PUSH SP).  The JS (dst - 2) AND 0xffff wraps a
16-bit value modulo 2 to the 16, embedded as (dst + 0x10000 - 2) AND 0xFFFF.
The helper returns the value the ModRM writer would store back. -/
def fnPUSHw (st : PushState) (dst : Nat) (pushsp : Bool) : PushState × Nat :=
  if pushsp then
    let dst2 := (dst + 0x10000 - 2) &&& 0xFFFF
    let w := if st.model < 80286 then dst2 else dst
    (pushWord st w, dst2)
  else
    (pushWord st dst, dst)

/-- C6. When the PUSHSP flag is set, a model below 80286 pushes the
post-decrement value (original SP minus 2, masked to 16 bits) while an
80286 or later pushes the original pre-decrement SP value. -/
theorem fnPUSHw_pushsp_model_split (st : PushState) (dst : Nat) :
    (st.model < 80286 →
      (fnPUSHw st dst true).1.pushed = ((dst + 2 ^ 16 - 2) % 2 ^ 16) :: st.pushed) ∧
    (80286 ≤ st.model →
      (fnPUSHw st dst true).1.pushed = dst :: st.pushed) := by
  have hmask : (dst + 0x10000 - 2) &&& 0xFFFF = (dst + 2 ^ 16 - 2) % 2 ^ 16 := by
    rw [show (0xFFFF : Nat) = 2 ^ 16 - 1 from rfl, Nat.and_pow_two_sub_one_eq_mod]
    norm_num
  have hval : fnPUSHw st dst true
      = (pushWord st (if st.model < 80286 then (dst + 0x10000 - 2) &&& 0xFFFF else dst),
          (dst + 0x10000 - 2) &&& 0xFFFF) := rfl
  constructor <;> intro hm
  · rw [hval, if_pos hm]
    simp only [pushWord, hmask]
  · rw [hval, if_neg (by omega)]
    simp only [pushWord]

/-- Witness for C6 on an 8086 with SP 0x0100. -/
theorem fnPUSHw_pushsp_model_split_witness :
    (fnPUSHw ⟨8086, []⟩ 0x0100 true).1.pushed = ((0x0100 + 2 ^ 16 - 2) % 2 ^ 16) :: [] :=
  (fnPUSHw_pushsp_model_split ⟨8086, []⟩ 0x0100).1 (by decide)

/-- State observed by the far CALL helper: the current CS and IP snapshot
sources and the stack (most recent word first). -/
structure CallfState where
  regCS : Nat
  regIP : Nat
  stack : List Nat
deriving DecidableEq, Repr

/-- Modelled from the spec: pushWord on the CALLF state (stack push as list
cons; the SP arithmetic is not observable in the claim). -/
def pushWordC (st : CallfState) (w : Nat) : CallfState :=
  { st with stack := w :: st.stack }

/-- X86.fnCALLF (x86.js lines 772-780): snapshot old CS and IP, attempt the
CS load, and push the snapshots only when the load returns non-null.
setCSIP of x86cpu.js is not part of the covered source; it is abstracted as
a function returning Option CallfState, where none models a faulting load
which, per spec section 4.4, changes no state (the original state is kept). -/
def fnCALLF (load : Nat → Nat → CallfState → Option CallfState)
    (st : CallfState) (off sel : Nat) : CallfState :=
  let regCS := st.regCS
  let regEIP := st.regIP
  match load off sel st with
  | none => st
  | some st2 => pushWordC (pushWordC st2 regCS) regEIP

/-- C3. A far CALL validates the destination CS before writing anything
observable: it snapshots the old CS and IP, attempts the CS load first, and
pushes the old CS and IP onto the stack only if that load succeeds; if the
CS load fails, no push occurs and no state from the current instruction is
changed. -/
theorem fnCALLF_validates_before_push
    (load : Nat → Nat → CallfState → Option CallfState)
    (st : CallfState) (off sel : Nat) :
    (load off sel st = none → fnCALLF load st off sel = st) ∧
    (∀ st2, load off sel st = some st2 →
      fnCALLF load st off sel = { st2 with stack := st.regIP :: st.regCS :: st2.stack }) := by
  constructor
  · intro h
    rw [fnCALLF]
    simp only [h]
  · intro st2 h
    rw [fnCALLF]
    simp only [h, pushWordC]

/-- Witness for C3: a loader that always faults leaves the state unchanged,
and a loader that succeeds pushes old CS then old IP. -/
theorem fnCALLF_validates_before_push_witness :
    fnCALLF (fun _ _ _ => none) ⟨0x1000, 0x0005, []⟩ 0x10 0x20 = ⟨0x1000, 0x0005, []⟩ ∧
    fnCALLF (fun _ _ st => some { st with regCS := 0x20 }) ⟨0x1000, 0x0005, []⟩ 0x10 0x20
      = ⟨0x20, 0x0005, [0x0005, 0x1000]⟩ := by
  constructor
  · exact (fnCALLF_validates_before_push (fun _ _ _ => none) ⟨0x1000, 0x0005, []⟩ 0x10 0x20).1 rfl
  · exact (fnCALLF_validates_before_push (fun _ _ st => some { st with regCS := 0x20 })
      ⟨0x1000, 0x0005, []⟩ 0x10 0x20).2 _ rfl

/-- Action performed by an opcode helper besides its return value.
opUndefined and opInvalid of x86ops.js are not part of the covered source;
per the X86.EXCEPTION comment (x86.js lines 77-84) a UD_FAULT interrupt is
generated by opInvalid, NOT by opUndefined (which is reserved for opcodes
whose behavior is still under investigation), so the two are modelled as
distinct actions, and only faultOp carries an exception vector. -/
inductive OpAction where
  | doneOp : OpAction
  | undefinedOp : OpAction
  | faultOp : Nat → OpAction
deriving DecidableEq, Repr

/-- X86.fnLEA (x86.js lines 1449-1466): with a register operand (regEA equal
ADDR_INVALID) the source invokes X86.opUndefined and returns dst unchanged;
otherwise it returns regEA. -/
def fnLEA (regEA : Int) (dst : Nat) : Nat × OpAction :=
  if regEA = ADDR_INVALID then (dst, OpAction.undefinedOp)
  else (regEA.toNat, OpAction.doneOp)

/-- Counterexample to C9 as stated: at a register operand, fnLEA performs
the opUndefined action, which is not the UD fault (vector 0x06); no UD
fault is raised. -/
theorem fnLEA_no_ud_fault_counterexample :
    (fnLEA ADDR_INVALID 0x1234).1 = 0x1234 ∧
    (fnLEA ADDR_INVALID 0x1234).2 = OpAction.undefinedOp ∧
    (fnLEA ADDR_INVALID 0x1234).2 ≠ OpAction.faultOp UD_FAULT := by
  decide

/-- C9 amended: for every execution of LEA whose ModR/M operand is a
register, the core invokes the opUndefined handler (not the UD fault) and
returns the destination unchanged; no effective address is stored. -/
theorem fnLEA_register_operand_undefined (regEA : Int) (dst : Nat)
    (h : regEA = ADDR_INVALID) :
    fnLEA regEA dst = (dst, OpAction.undefinedOp) := by
  rw [fnLEA, if_pos h]

/-- Witness for the amended C9. -/
theorem fnLEA_register_operand_undefined_witness :
    fnLEA (-1) 0x5678 = (0x5678, OpAction.undefinedOp) :=
  fnLEA_register_operand_undefined (-1) 0x5678 rfl

/-- State consulted by the fault dispatcher: CPU model, the fault in flight
(minus one when none), the linear address of the current instruction
(opLIP), the CS base and the linear IP. -/
structure FaultState where
  model : Nat
  nFault : Int
  opLIP : Nat
  csBase : Nat
  regLIP : Nat
deriving DecidableEq, Repr

/-- Modelled from the spec: setIP of x86cpu.js is not part of the covered
source; it stores csBase plus the offset into the linear IP. -/
def setIP (st : FaultState) (off : Nat) : FaultState :=
  { st with regLIP := st.csBase + off }

/-- Outcome of the fault dispatcher: an interrupt dispatch through fnINT
(with the vector, the error code and the state at dispatch time), a CPU
reset (triple fault), or nothing (models below 80186 never set fDispatch). -/
inductive FaultOutcome where
  | dispatch : Nat → Option Nat → FaultState → FaultOutcome
  | reset : FaultOutcome
  | blocked : FaultState → FaultOutcome
deriving DecidableEq, Repr

/-- X86.fnFault (x86.js lines 2993-3046) for a machine without an attached
Debugger: aFlags.fComplete holds and fnFaultMessage returns a falsy value,
so the debugger paths are inert.  A dispatch calls X86.fnINT with
this.nFault assigned the dispatched vector; the outcome records vector,
error code and state at that call. -/
def fnFault (st : FaultState) (nFault : Nat) (nError : Option Nat) : FaultOutcome :=
  if 80186 ≤ st.model then
    if st.nFault < 0 then
      let st2 := setIP st (st.opLIP - st.csBase)
      FaultOutcome.dispatch nFault nError { st2 with nFault := (nFault : Int) }
    else if st.nFault ≠ ((DF_FAULT : Nat) : Int) then
      FaultOutcome.dispatch DF_FAULT (some 0) { st with nFault := ((DF_FAULT : Nat) : Int) }
    else
      FaultOutcome.reset
  else
    FaultOutcome.blocked st

/-- C4. In the fault dispatcher: a fault raised while one is in flight and
not already the double-fault vector becomes a double fault (vector 0x08,
error code 0); a fault while the in-flight fault is the double-fault vector
resets the CPU (triple fault); with no fault in flight, IP is restored to
opLIP and the original vector and error code are dispatched. -/
theorem fnFault_double_triple_restart (st : FaultState) (vec : Nat) (err : Option Nat)
    (hm : 80186 ≤ st.model) :
    (0 ≤ st.nFault → st.nFault ≠ ((DF_FAULT : Nat) : Int) →
      fnFault st vec err
        = FaultOutcome.dispatch DF_FAULT (some 0) { st with nFault := ((DF_FAULT : Nat) : Int) }) ∧
    (st.nFault = ((DF_FAULT : Nat) : Int) → fnFault st vec err = FaultOutcome.reset) ∧
    (st.nFault < 0 → st.csBase ≤ st.opLIP →
      fnFault st vec err
        = FaultOutcome.dispatch vec err { st with regLIP := st.opLIP, nFault := (vec : Int) }) := by
  refine ⟨?_, ?_, ?_⟩
  · intro h0 hdf
    rw [fnFault, if_pos hm, if_neg (by omega), if_pos hdf]
  · intro hdf
    rw [fnFault, if_pos hm, if_neg (by rw [hdf]; decide), if_neg (by rw [hdf]; simp)]
  · intro h0 hle
    rw [fnFault, if_pos hm, if_pos h0]
    simp only [setIP]
    congr 1
    congr 1
    omega

/-- Witness for C4: double fault synthesis on an 80286 with a GP fault in
flight, and restartable dispatch with no fault in flight. -/
theorem fnFault_double_triple_restart_witness :
    fnFault ⟨80286, 13, 0xF0100, 0xF0000, 0xF0105⟩ 13 (some 0)
      = FaultOutcome.dispatch DF_FAULT (some 0) ⟨80286, 8, 0xF0100, 0xF0000, 0xF0105⟩ ∧
    fnFault ⟨80286, -1, 0xF0100, 0xF0000, 0xF0105⟩ 13 (some 0)
      = FaultOutcome.dispatch 13 (some 0) ⟨80286, 13, 0xF0100, 0xF0000, 0xF0100⟩ := by
  constructor
  · exact (fnFault_double_triple_restart ⟨80286, 13, 0xF0100, 0xF0000, 0xF0105⟩ 13 (some 0)
      (by decide)).1 (by decide) (by decide)
  · exact (fnFault_double_triple_restart ⟨80286, -1, 0xF0100, 0xF0000, 0xF0105⟩ 13 (some 0)
      (by decide)).2.2 (by decide) (by decide)

/-- Shadow record of a data segment register: selector, descriptor privilege
level, and access word. -/
structure SegReg where
  sel : Nat
  dpl : Nat
  acc : Nat
deriving DecidableEq, Repr

/-- State of the segment-nulling step of a far return: the four data segment
registers and the CPL established by the CS load (segCS.cpl).  FS and GS are
modelled from the spec (section 3 lists them for 80386 class CPUs); the
source fnRETF never references them. -/
structure RetfState where
  ds : SegReg
  es : SegReg
  fs : SegReg
  gs : SegReg
  cpl : Nat
deriving DecidableEq, Repr

/-- Modelled from the spec: load(0) of x86seg.js is not part of the covered
source; loading the null selector leaves the register holding selector 0
(spec section 4.2); the shadow fields are cleared for definiteness. -/
def loadNull (_r : SegReg) : SegReg := ⟨0, 0, 0⟩

/-- Nulling condition of X86.fnRETF (x86.js lines 2014 and 2018): non-null
selector, DPL below the new CPL, and not a conforming code segment. -/
def segNeedsNull (r : SegReg) (cpl : Nat) : Bool :=
  (r.sel &&& SEL_MASK != 0) && decide (r.dpl < cpl) &&
    (r.acc &&& CODE_CONFORMING != CODE_CONFORMING)

/-- Segment-nulling step of X86.fnRETF (x86.js lines 1997-2024), reached
when setCSIP returned true (a far return that lowered the privilege level).
The source checks only segDS and segES; no other register is touched. -/
def fnRETF_nullStep (st : RetfState) : RetfState :=
  let st1 := if segNeedsNull st.ds st.cpl then { st with ds := loadNull st.ds } else st
  if segNeedsNull st1.es st1.cpl then { st1 with es := loadNull st1.es } else st1

/-- Counterexample to C8 as stated: a far return to CPL 3 with FS holding a
non-null selector of a writable data segment with DPL 0 (so the claim
requires FS to be nulled) leaves FS untouched. -/
theorem fnRETF_fs_not_nulled_counterexample :
    segNeedsNull (RetfState.fs ⟨⟨0, 0, 0⟩, ⟨0, 0, 0⟩, ⟨0x0008, 0, 0x1200⟩, ⟨0, 0, 0⟩, 3⟩)
        (RetfState.cpl ⟨⟨0, 0, 0⟩, ⟨0, 0, 0⟩, ⟨0x0008, 0, 0x1200⟩, ⟨0, 0, 0⟩, 3⟩) = true ∧
    (fnRETF_nullStep ⟨⟨0, 0, 0⟩, ⟨0, 0, 0⟩, ⟨0x0008, 0, 0x1200⟩, ⟨0, 0, 0⟩, 3⟩).fs
      = ⟨0x0008, 0, 0x1200⟩ ∧
    (0x0008 : Nat) ≠ 0 := by
  decide

/-- C8 amended: after a far return that lowered the privilege level, each of
DS and ES meeting the nulling condition (non-null selector, DPL below the
new CPL, not a conforming code segment) is loaded with the null selector;
DS and ES not meeting it, and FS and GS always, are left unchanged. -/
theorem fnRETF_nulls_ds_es_only (st : RetfState) :
    ((fnRETF_nullStep st).ds = if segNeedsNull st.ds st.cpl then loadNull st.ds else st.ds) ∧
    ((fnRETF_nullStep st).es = if segNeedsNull st.es st.cpl then loadNull st.es else st.es) ∧
    (fnRETF_nullStep st).fs = st.fs ∧
    (fnRETF_nullStep st).gs = st.gs ∧
    (fnRETF_nullStep st).cpl = st.cpl := by
  by_cases h1 : segNeedsNull st.ds st.cpl <;> by_cases h2 : segNeedsNull st.es st.cpl <;>
    simp [fnRETF_nullStep, h1, h2]

/-- State consulted by the divide helpers: AX and DX (the source fields
regEAX and regEDX hold 16-bit values on the CPUs this file covers), the
linear address of the current instruction (opLIP), the CS base and the
linear IP. -/
structure DivState where
  regEAX : Nat
  regEDX : Nat
  opLIP : Nat
  csBase : Nat
  regLIP : Nat
deriving DecidableEq, Repr

/-- Modelled from the spec: setIP of x86cpu.js on the divide state; stores
csBase plus the offset into the linear IP. -/
def setIPd (st : DivState) (off : Nat) : DivState :=
  { st with regLIP := st.csBase + off }

/-- Record of a dispatch through X86.fnINT (x86.js lines 1291-1311): the
vector, and the return IP that fnINT pushes (getIP at call time, the linear
IP minus the CS base).  The IDT lookup and the pushes use loadIDT and
pushWord, which are not part of the covered source; fnINT reads neither
regEAX nor regEDX. -/
structure IntDispatch where
  vector : Nat
  retIP : Nat
deriving DecidableEq, Repr

/-- Vector and pushed return IP of an fnINT call made from the divide path. -/
def fnINTrec (st : DivState) (vec : Nat) : IntDispatch :=
  ⟨vec, st.regLIP - st.csBase⟩

/-- X86.fnDIVOverflow (x86.js lines 2974-2981): rewinds IP to the faulting
instruction (opLIP minus the CS base) and dispatches DIV_ERR through fnINT. -/
def fnDIVOverflow (st : DivState) : DivState × IntDispatch :=
  let st2 := setIPd st (st.opLIP - st.csBase)
  (st2, fnINTrec st2 DIV_ERR)

/-- X86.fnDIVw (x86.js lines 928-962): word DIV.  dst is the divisor; the
dividend is DX:AX assembled as regEAX + regEDX * 0x10000 (float arithmetic
in the source, exact at these magnitudes).  Math.floor of the float
quotient equals Nat division here: the exact rational quotient is at least
2 to the minus 16 away from any integer it does not equal, far above the
float rounding error bound of about 2 to the minus 21 at these magnitudes. -/
def fnDIVw (st : DivState) (dst : Nat) : DivState × Option IntDispatch :=
  if dst = 0 then
    let p := fnDIVOverflow st
    (p.1, some p.2)
  else
    let src := st.regEAX + st.regEDX * 0x10000
    let uQuotient := src / dst
    if 0x10000 ≤ uQuotient then
      let p := fnDIVOverflow st
      (p.1, some p.2)
    else
      ({ st with regEAX := uQuotient &&& 0xFFFF, regEDX := (src % dst) &&& 0xFFFF }, none)

/-- X86.fnDIVb (x86.js lines 890-918): byte DIV.  The source compares the
FLOAT quotient regEAX divided by dst against 0xff without flooring; the
comparison uQuotient strictly above 0xff holds exactly when regEAX is
strictly above 0xff times dst (float rounding cannot move the quotient
across the integer 0xff: the exact rational is at least 2 to the minus 16
away from it, far above the rounding bound).  On no overflow, AL receives
the truncated quotient and AH the remainder. -/
def fnDIVb (st : DivState) (dst : Nat) : DivState × Option IntDispatch :=
  if dst = 0 then
    let p := fnDIVOverflow st
    (p.1, some p.2)
  else
    if 0xFF * dst < st.regEAX then
      let p := fnDIVOverflow st
      (p.1, some p.2)
    else
      ({ st with regEAX := ((st.regEAX / dst) &&& 0xFF) ||| (((st.regEAX % dst) &&& 0xFF) <<< 8) },
        none)

/-- C2 failing input: byte DIV with AX 0x01FF and divisor 0x02.  The true
unsigned quotient 0xFF fits in the byte target, so per the claim no DIV_ERR
may be raised, but the code raises DIV_ERR (the unfloored float quotient
255.5 exceeds 0xff), rewinding IP to opLIP and leaving AX and DX unchanged. -/
theorem fnDIVb_spurious_div_err :
    (fnDIVb ⟨0x01FF, 0, 0x0100, 0, 0x0102⟩ 2).2 = some ⟨DIV_ERR, 0x0100⟩ ∧
    (0x01FF : Nat) / 2 ≤ 0xFF ∧
    (fnDIVb ⟨0x01FF, 0, 0x0100, 0, 0x0102⟩ 2).1.regEAX = 0x01FF ∧
    (fnDIVb ⟨0x01FF, 0, 0x0100, 0, 0x0102⟩ 2).1.regEDX = 0 ∧
    (fnDIVb ⟨0x01FF, 0, 0x0100, 0, 0x0102⟩ 2).1.regLIP = 0x0100 := by
  decide

/-- Outputs of the multiply helpers: AX, DX and the carry and overflow
flags (the source sets CF and OF together through setCF and setOF, which
are modelled as the two Bool fields). -/
structure MulOut where
  regEAX : Nat
  regEDX : Nat
  cf : Bool
  ofv : Bool
deriving DecidableEq, Repr

/-- X86.fnMULw (x86.js lines 1706-1726): word MUL.  result is the exact
product (JS float, exact below 2 to the 53); AX gets the low word, DX the
high word; CF and OF are set iff DX is nonzero.  The JS (result SHR 16)
AND 0xffff goes through a ToInt32 wrap for products at or above 2 to the
31, but the final AND keeps exactly bits 16 to 31 of the product either
way, which is what the Nat logical shift computes for products below 2 to
the 32. -/
def fnMULw (regEAX dst : Nat) : MulOut :=
  let result := regEAX * dst
  let lo := result &&& 0xFFFF
  let hi := (result >>> 16) &&& 0xFFFF
  ⟨lo, hi, hi != 0, hi != 0⟩

/-- Sign extension of the low byte of a value, as the JS (x SHL 24) SAR 24
computes: the shift pair keeps only the low 8 bits and interprets them as
a signed byte. -/
def sext8 (x : Nat) : Int :=
  if x % 256 < 128 then (x % 256 : Int) else (x % 256 : Int) - 256

/-- Sign extension of the low word of a value, as the JS (x SHL 16) SAR 16
computes. -/
def sext16 (x : Nat) : Int :=
  if x % 65536 < 32768 then (x % 65536 : Int) else (x % 65536 : Int) - 65536

/-- Low 16 bits of a JS int32 value (the JS v AND 0xffff on a possibly
negative v): the Euclidean remainder modulo 2 to the 16. -/
def toUInt16 (i : Int) : Nat :=
  (i % 65536).toNat

/-- Arithmetic right shift by 16 of a JS int32 value: floor division by
2 to the 16, which for the positive divisor is the Lean Int division. -/
def sar16 (i : Int) : Int :=
  i / 65536

/-- X86.fnIMULb (x86.js lines 1165-1184): byte IMUL.  AL and the operand
are sign-extended and multiplied; AX receives the low 16 bits of the
product; CF and OF are set iff the product lies outside the signed byte
range. -/
def fnIMULb (regEAX dst : Nat) : Nat × Bool × Bool :=
  let result := sext8 regEAX * sext8 dst
  let ax := toUInt16 result
  (ax, decide (127 < result ∨ result < -128), decide (127 < result ∨ result < -128))

/-- X86.fnIMULw (x86.js lines 1207-1227): word IMUL.  AX and the operand
are sign-extended and multiplied; AX receives the low word and DX the high
word of the product; CF and OF are set iff the product lies outside the
signed word range. -/
def fnIMULw (regEAX dst : Nat) : MulOut :=
  let result := sext16 regEAX * sext16 dst
  let ax := toUInt16 result
  let dx := toUInt16 (sar16 result)
  ⟨ax, dx, decide (32767 < result ∨ result < -32768), decide (32767 < result ∨ result < -32768)⟩

/-- Range of the byte sign extension. -/
lemma sext8_range (x : Nat) : -128 ≤ sext8 x ∧ sext8 x ≤ 127 := by
  have h := Nat.mod_lt x (show 0 < 256 by decide)
  rw [sext8]
  split <;> omega

/-- Range of the word sign extension. -/
lemma sext16_range (x : Nat) : -32768 ≤ sext16 x ∧ sext16 x ≤ 32767 := by
  have h := Nat.mod_lt x (show 0 < 65536 by decide)
  rw [sext16]
  split <;> omega

/-- Bound on a product of two signed values. -/
lemma mul_range_bound (p q bnd : Int) (hp : -bnd ≤ p ∧ p ≤ bnd) (hq : -bnd ≤ q ∧ q ≤ bnd)
    (hb : 0 ≤ bnd) : -(bnd * bnd) ≤ p * q ∧ p * q ≤ bnd * bnd := by
  have h1 : |p| ≤ bnd := abs_le.mpr hp
  have h2 : |q| ≤ bnd := abs_le.mpr hq
  have h3 : |p * q| ≤ bnd * bnd := by
    rw [abs_mul]
    exact mul_le_mul h1 h2 (abs_nonneg q) hb
  exact abs_le.mp h3

/-- C5. The word form of MUL sets both CF and OF iff the upper half of the
double-width product (DX) is nonzero; the byte and word forms of IMUL set
both CF and OF iff the upper half of the product is not a pure sign
extension of the lower half (signed result outside -128..127 for byte,
outside -32768..32767 for word), and clear both otherwise. -/
theorem mul_imul_carry_overflow :
    (∀ a d : Nat, a < 2 ^ 16 → d < 2 ^ 16 →
      (fnMULw a d).regEDX = a * d / 2 ^ 16 ∧
      (fnMULw a d).regEAX = a * d % 2 ^ 16 ∧
      (fnMULw a d).ofv = (fnMULw a d).cf ∧
      ((fnMULw a d).cf = true ↔ (fnMULw a d).regEDX ≠ 0)) ∧
    (∀ a d : Nat,
      ((fnIMULb a d).2.1 = true ↔
        ¬ (-128 ≤ sext8 a * sext8 d ∧ sext8 a * sext8 d ≤ 127)) ∧
      (fnIMULb a d).2.2 = (fnIMULb a d).2.1 ∧
      ((fnIMULb a d).2.1 = true ↔
        ¬ ((fnIMULb a d).1 / 2 ^ 8 = if (fnIMULb a d).1 % 2 ^ 8 < 2 ^ 7 then 0 else 2 ^ 8 - 1))) ∧
    (∀ a d : Nat,
      ((fnIMULw a d).cf = true ↔
        ¬ (-32768 ≤ sext16 a * sext16 d ∧ sext16 a * sext16 d ≤ 32767)) ∧
      (fnIMULw a d).ofv = (fnIMULw a d).cf ∧
      ((fnIMULw a d).cf = true ↔
        ¬ ((fnIMULw a d).regEDX = if (fnIMULw a d).regEAX < 2 ^ 15 then 0 else 2 ^ 16 - 1))) := by
  refine ⟨?_, ?_, ?_⟩
  · intro a d ha hd
    have hbound : a * d ≤ 65535 * 65535 := Nat.mul_le_mul (by omega) (by omega)
    have hlt : a * d < 2 ^ 32 := by omega
    have hhi : ((a * d) >>> 16) &&& 0xFFFF = a * d / 2 ^ 16 := by
      rw [Nat.shiftRight_eq_div_pow, show (0xFFFF : Nat) = 2 ^ 16 - 1 from rfl]
      apply Nat.and_pow_two_sub_one_of_lt_two_pow
      omega
    have hlo : (a * d) &&& 0xFFFF = a * d % 2 ^ 16 := by
      rw [show (0xFFFF : Nat) = 2 ^ 16 - 1 from rfl, Nat.and_pow_two_sub_one_eq_mod]
    refine ⟨hhi, hlo, rfl, ?_⟩
    rw [show (fnMULw a d).cf = (((a * d) >>> 16) &&& 0xFFFF != 0) from rfl,
      show (fnMULw a d).regEDX = ((a * d) >>> 16) &&& 0xFFFF from rfl]
    simp [bne_iff_ne]
  · intro a d
    have h1 := sext8_range a
    have h2 := sext8_range d
    have hr := mul_range_bound (sext8 a) (sext8 d) 128 ⟨h1.1, by omega⟩ ⟨h2.1, by omega⟩
      (by omega)
    refine ⟨by simp [fnIMULb]; omega, rfl, ?_⟩
    rw [show (fnIMULb a d).2.1 = decide (127 < sext8 a * sext8 d ∨ sext8 a * sext8 d < -128)
        from rfl,
      show (fnIMULb a d).1 = toUInt16 (sext8 a * sext8 d) from rfl]
    rw [toUInt16]
    simp only [decide_eq_true_eq]
    split <;> omega
  · intro a d
    have h1 := sext16_range a
    have h2 := sext16_range d
    have hr := mul_range_bound (sext16 a) (sext16 d) 32768 ⟨h1.1, by omega⟩ ⟨h2.1, by omega⟩
      (by omega)
    refine ⟨by simp [fnIMULw]; omega, rfl, ?_⟩
    rw [show (fnIMULw a d).cf = decide (32767 < sext16 a * sext16 d ∨ sext16 a * sext16 d < -32768)
        from rfl,
      show (fnIMULw a d).regEAX = toUInt16 (sext16 a * sext16 d) from rfl,
      show (fnIMULw a d).regEDX = toUInt16 (sar16 (sext16 a * sext16 d)) from rfl]
    rw [toUInt16, toUInt16, sar16]
    simp only [decide_eq_true_eq]
    split <;> omega

/-- Witness for C5: the word MUL part applied at 0x0002 times 0xC000
(product 0x18000, DX nonzero, carry set). -/
theorem mul_imul_carry_overflow_witness :
    (fnMULw 0x0002 0xC000).regEDX = 0x0002 * 0xC000 / 2 ^ 16 ∧
    ((fnMULw 0x0002 0xC000).cf = true ↔ (fnMULw 0x0002 0xC000).regEDX ≠ 0) := by
  have h := mul_imul_carry_overflow.1 0x0002 0xC000 (by decide) (by decide)
  exact ⟨h.1, h.2.2.2⟩


/-
C7: rotate instructions (x86.js lines 2034-2170 fnROLb/fnROLw/fnRORb/fnRORw,
lines 1874-1986 fnRCLb/fnRCLw/fnRCRb/fnRCRw, lines 2890-2894 setRotateResult).

The reference model of an n-count rotate is the n-fold iterate of a one-bit
rotation at the operand width (w+1 bits for the through-carry forms, with the
carry flag occupying bit w of the extended register).  The bit most recently
rotated out is then: the low bit after a left rotation, the high bit after a
right rotation, and bit w of the extended register for the through-carry forms.
The source reduces the count before rotating (src & 0x7 / 0xF for ROL/ROR,
(src & nShiftCountMask) % 9 / % 17 for RCL/RCR); the proofs recover the full
n-fold iterate from these residues by periodicity of the rotation.
nShiftCountMask is a CPU model field living outside src/, so it enters as the
parameter m.  getCarry() yields 0 or 1 and enters as the Bool parameter cf.
-/

/-- One-bit left rotation of a `w`-bit value: the top bit moves to position 0. -/
def rotlStep (w v : Nat) : Nat := (v % 2 ^ (w - 1)) * 2 + v / 2 ^ (w - 1)

/-- Closed form of `s` successive one-bit left rotations of a `w`-bit value. -/
def rotl (w s v : Nat) : Nat := (v % 2 ^ (w - s)) * 2 ^ s + v / 2 ^ (w - s)

lemma rotl_zero (w v : Nat) (hv : v < 2 ^ w) : rotl w 0 v = v := by
  rw [rotl, Nat.sub_zero, pow_zero, mul_one, Nat.mod_eq_of_lt hv, Nat.div_eq_of_lt hv,
    Nat.add_zero]

lemma rotl_lt (w s v : Nat) (hs : s ≤ w) (hv : v < 2 ^ w) : rotl w s v < 2 ^ w := by
  rw [rotl]
  have hAB : 2 ^ (w - s) * 2 ^ s = 2 ^ w := by
    rw [← pow_add]
    congr 1
    omega
  have h1 : v % 2 ^ (w - s) < 2 ^ (w - s) := Nat.mod_lt _ (Nat.two_pow_pos _)
  have h2 : v / 2 ^ (w - s) < 2 ^ s := Nat.div_lt_of_lt_mul (by rw [hAB]; exact hv)
  have h3 : v % 2 ^ (w - s) * 2 ^ s ≤ (2 ^ (w - s) - 1) * 2 ^ s :=
    Nat.mul_le_mul_right _ (by omega)
  have h4 : (2 ^ (w - s) - 1) * 2 ^ s = 2 ^ (w - s) * 2 ^ s - 1 * 2 ^ s := Nat.sub_mul _ _ _
  have h5 : (0 : Nat) < 2 ^ s := Nat.two_pow_pos _
  have h6 : (0 : Nat) < 2 ^ (w - s) := Nat.two_pow_pos _
  have h7 : 2 ^ s ≤ 2 ^ (w - s) * 2 ^ s := Nat.le_mul_of_pos_left _ h6
  omega

lemma rotlStep_rotl (w s v : Nat) (hs : s < w) (hv : v < 2 ^ w) :
    rotlStep w (rotl w s v) = rotl w (s + 1) v := by
  have hKP : 2 ^ (w - s) = 2 * 2 ^ (w - s - 1) := by
    rw [← pow_succ']
    congr 1
    omega
  have hPQ : 2 ^ (w - 1) = 2 ^ (w - s - 1) * 2 ^ s := by
    rw [← pow_add]
    congr 1
    omega
  have hv1 : 2 ^ (w - s) * (v / 2 ^ (w - s)) + v % 2 ^ (w - s) = v := Nat.div_add_mod v _
  have ha : v / 2 ^ (w - s) < 2 ^ s := by
    apply Nat.div_lt_of_lt_mul
    rw [← pow_add, show w - s + s = w by omega]
    exact hv
  have hb1 : 2 ^ (w - s - 1) * ((v % 2 ^ (w - s)) / 2 ^ (w - s - 1))
      + (v % 2 ^ (w - s)) % 2 ^ (w - s - 1) = v % 2 ^ (w - s) := Nat.div_add_mod _ _
  have hbK : v % 2 ^ (w - s) < 2 ^ (w - s) := Nat.mod_lt _ (Nat.two_pow_pos _)
  have ht : (v % 2 ^ (w - s)) / 2 ^ (w - s - 1) < 2 := by
    apply Nat.div_lt_of_lt_mul
    omega
  have hc : (v % 2 ^ (w - s)) % 2 ^ (w - s - 1) < 2 ^ (w - s - 1) :=
    Nat.mod_lt _ (Nat.two_pow_pos _)
  have hx : (v % 2 ^ (w - s)) * 2 ^ s + v / 2 ^ (w - s)
      = (2 ^ (w - s - 1) * 2 ^ s) * ((v % 2 ^ (w - s)) / 2 ^ (w - s - 1))
        + ((v % 2 ^ (w - s)) % 2 ^ (w - s - 1) * 2 ^ s + v / 2 ^ (w - s)) := by
    conv_lhs => rw [← hb1]
    ring
  have hsmall : (v % 2 ^ (w - s)) % 2 ^ (w - s - 1) * 2 ^ s + v / 2 ^ (w - s)
      < 2 ^ (w - s - 1) * 2 ^ s := by
    have h2 : (v % 2 ^ (w - s)) % 2 ^ (w - s - 1) * 2 ^ s ≤ (2 ^ (w - s - 1) - 1) * 2 ^ s :=
      Nat.mul_le_mul_right _ (by omega)
    have h3 : (2 ^ (w - s - 1) - 1) * 2 ^ s = 2 ^ (w - s - 1) * 2 ^ s - 1 * 2 ^ s :=
      Nat.sub_mul _ _ _
    have h5 : (0 : Nat) < 2 ^ s := Nat.two_pow_pos _
    have h6 : (0 : Nat) < 2 ^ (w - s - 1) := Nat.two_pow_pos _
    have h7 : 2 ^ s ≤ 2 ^ (w - s - 1) * 2 ^ s := Nat.le_mul_of_pos_left _ h6
    omega
  have hmod : ((v % 2 ^ (w - s)) * 2 ^ s + v / 2 ^ (w - s)) % 2 ^ (w - 1)
      = (v % 2 ^ (w - s)) % 2 ^ (w - s - 1) * 2 ^ s + v / 2 ^ (w - s) := by
    rw [hPQ, hx, Nat.mul_add_mod, Nat.mod_eq_of_lt hsmall]
  have hdiv : ((v % 2 ^ (w - s)) * 2 ^ s + v / 2 ^ (w - s)) / 2 ^ (w - 1)
      = (v % 2 ^ (w - s)) / 2 ^ (w - s - 1) := by
    rw [hPQ, hx, Nat.mul_add_div (by positivity), Nat.div_eq_of_lt hsmall, Nat.add_zero]
  have hvP : v % 2 ^ (w - s - 1) = (v % 2 ^ (w - s)) % 2 ^ (w - s - 1) :=
    (Nat.mod_mod_of_dvd v (pow_dvd_pow 2 (by omega))).symm
  have hvdiv : v / 2 ^ (w - s - 1) = 2 * (v / 2 ^ (w - s)) + (v % 2 ^ (w - s)) / 2 ^ (w - s - 1) := by
    conv_lhs => rw [← hv1]
    rw [hKP, show 2 * 2 ^ (w - s - 1) * (v / (2 * 2 ^ (w - s - 1)))
        = 2 ^ (w - s - 1) * (2 * (v / (2 * 2 ^ (w - s - 1)))) by ring]
    rw [Nat.mul_add_div (Nat.two_pow_pos _)]
  show (rotl w s v % 2 ^ (w - 1)) * 2 + rotl w s v / 2 ^ (w - 1) = rotl w (s + 1) v
  rw [show rotl w s v = (v % 2 ^ (w - s)) * 2 ^ s + v / 2 ^ (w - s) from rfl]
  rw [hmod, hdiv]
  rw [show rotl w (s + 1) v = (v % 2 ^ (w - (s + 1))) * 2 ^ (s + 1) + v / 2 ^ (w - (s + 1)) from rfl]
  rw [show w - (s + 1) = w - s - 1 by omega, hvP, hvdiv, pow_succ]
  ring

lemma rotl_iterate (w s v : Nat) (hs : s ≤ w) (hv : v < 2 ^ w) :
    (rotlStep w)^[s] v = rotl w s v := by
  induction s with
  | zero => rw [Function.iterate_zero_apply, rotl_zero w v hv]
  | succ n ih =>
    rw [Function.iterate_succ_apply', ih (by omega)]
    exact rotlStep_rotl w n v (by omega) hv

lemma rotl_full (w v : Nat) (hv : v < 2 ^ w) : (rotlStep w)^[w] v = v := by
  rw [rotl_iterate w w v le_rfl hv, rotl, Nat.sub_self, pow_zero, Nat.mod_one, Nat.zero_mul,
    Nat.zero_add, Nat.div_one]

lemma iterate_mod_cycle {α : Type} (f : α → α) (p : Nat) (x : α) (hx : f^[p] x = x)
    (c : Nat) : f^[c] x = f^[c % p] x := by
  by_cases hp : p = 0
  · subst hp
    rw [Nat.mod_zero]
  have hfix : ∀ n, (f^[p])^[n] x = x := by
    intro n
    induction n with
    | zero => rfl
    | succ m ih =>
      rw [Function.iterate_succ_apply, hx, ih]
  conv_lhs => rw [← Nat.mod_add_div c p]
  rw [Function.iterate_add_apply, Function.iterate_mul, hfix]

/-- One-bit right rotation of a `w`-bit value: bit 0 moves to the top. -/
def rotrStep (w v : Nat) : Nat := v / 2 + (v % 2) * 2 ^ (w - 1)

/-- Closed form of `s` successive one-bit right rotations of a `w`-bit value. -/
def rotr (w s v : Nat) : Nat := v / 2 ^ s + (v % 2 ^ s) * 2 ^ (w - s)

lemma rotr_zero (w v : Nat) (hv : v < 2 ^ w) : rotr w 0 v = v := by
  rw [rotr, pow_zero, Nat.div_one, Nat.mod_one, Nat.zero_mul, Nat.add_zero]

lemma rotr_lt (w s v : Nat) (hs : s ≤ w) (hv : v < 2 ^ w) : rotr w s v < 2 ^ w := by
  rw [rotr]
  have hAB : 2 ^ s * 2 ^ (w - s) = 2 ^ w := by
    rw [← pow_add]
    congr 1
    omega
  have h1 : v % 2 ^ s < 2 ^ s := Nat.mod_lt _ (Nat.two_pow_pos _)
  have h2 : v / 2 ^ s < 2 ^ (w - s) := Nat.div_lt_of_lt_mul (by rw [hAB]; exact hv)
  have h3 : v % 2 ^ s * 2 ^ (w - s) ≤ (2 ^ s - 1) * 2 ^ (w - s) :=
    Nat.mul_le_mul_right _ (by omega)
  have h4 : (2 ^ s - 1) * 2 ^ (w - s) = 2 ^ s * 2 ^ (w - s) - 1 * 2 ^ (w - s) := Nat.sub_mul _ _ _
  have h5 : (0 : Nat) < 2 ^ s := Nat.two_pow_pos _
  have h6 : (0 : Nat) < 2 ^ (w - s) := Nat.two_pow_pos _
  have h7 : 2 ^ (w - s) ≤ 2 ^ s * 2 ^ (w - s) := Nat.le_mul_of_pos_left _ h5
  omega

lemma rotrStep_rotr (w s v : Nat) (hs : s < w) (hv : v < 2 ^ w) :
    rotrStep w (rotr w s v) = rotr w (s + 1) v := by
  have hWS : 2 ^ (w - s) = 2 * 2 ^ (w - s - 1) := by
    rw [← pow_succ']
    congr 1
    omega
  have hW1 : 2 ^ (w - 1) = 2 ^ s * 2 ^ (w - s - 1) := by
    rw [← pow_add]
    congr 1
    omega
  have hS1 : 2 ^ (s + 1) = 2 ^ s * 2 := pow_succ 2 s
  have hva : 2 ^ s * (v / 2 ^ s) + v % 2 ^ s = v := Nat.div_add_mod v _
  have hr : v % 2 ^ s < 2 ^ s := Nat.mod_lt _ (Nat.two_pow_pos _)
  have haa : 2 * (v / 2 ^ s / 2) + v / 2 ^ s % 2 = v / 2 ^ s := Nat.div_add_mod _ 2
  have ha0 : v / 2 ^ s % 2 < 2 := Nat.mod_lt _ (by norm_num)
  have hx : rotr w s v = v / 2 ^ s % 2 + 2 * (v / 2 ^ s / 2 + v % 2 ^ s * 2 ^ (w - s - 1)) := by
    rw [rotr, hWS]
    conv_lhs => rw [← haa]
    ring
  have hxdiv : rotr w s v / 2 = v / 2 ^ s / 2 + v % 2 ^ s * 2 ^ (w - s - 1) := by
    rw [hx, Nat.add_mul_div_left _ _ (by norm_num)]
    omega
  have hxmod : rotr w s v % 2 = v / 2 ^ s % 2 := by
    rw [hx, Nat.add_mul_mod_self_left]
    omega
  have hdiv1 : v / 2 ^ (s + 1) = v / 2 ^ s / 2 := by
    conv_rhs => rw [Nat.div_div_eq_div_mul, ← pow_succ]
  have hmod1 : v % 2 ^ (s + 1) = 2 ^ s * (v / 2 ^ s % 2) + v % 2 ^ s := by
    have hb : 2 ^ s * (v / 2 ^ s % 2) ≤ 2 ^ s * 1 := Nat.mul_le_mul_left _ (by omega)
    have hsmall : 2 ^ s * (v / 2 ^ s % 2) + v % 2 ^ s < 2 ^ (s + 1) := by omega
    have hvrepr : v = 2 ^ (s + 1) * (v / 2 ^ s / 2) + (2 ^ s * (v / 2 ^ s % 2) + v % 2 ^ s) := by
      conv_lhs => rw [← hva]
      conv_lhs => rw [← haa]
      rw [hS1]
      ring
    conv_lhs => rw [hvrepr]
    rw [Nat.mul_add_mod, Nat.mod_eq_of_lt hsmall]
  rw [rotrStep, hxdiv, hxmod]
  rw [show rotr w (s + 1) v = v / 2 ^ (s + 1) + v % 2 ^ (s + 1) * 2 ^ (w - (s + 1)) from rfl]
  rw [hdiv1, hmod1, hW1, show w - (s + 1) = w - s - 1 by omega]
  ring

lemma rotr_iterate (w s v : Nat) (hs : s ≤ w) (hv : v < 2 ^ w) :
    (rotrStep w)^[s] v = rotr w s v := by
  induction s with
  | zero => rw [Function.iterate_zero_apply, rotr_zero w v hv]
  | succ n ih =>
    rw [Function.iterate_succ_apply', ih (by omega)]
    exact rotrStep_rotr w n v (by omega) hv

lemma rotr_full (w v : Nat) (hv : v < 2 ^ w) : (rotrStep w)^[w] v = v := by
  rw [rotr_iterate w w v le_rfl hv, rotr, Nat.sub_self, pow_zero, mul_one]
  have h1 : v % 2 ^ w = v := Nat.mod_eq_of_lt hv
  have h2 : v / 2 ^ w = 0 := Nat.div_eq_of_lt hv
  omega

lemma or_add_of_lt (x b s : Nat) (hb : b < 2 ^ s) : (x * 2 ^ s) ||| b = x * 2 ^ s + b := by
  rw [mul_comm]
  exact (Nat.mul_add_lt_is_or hb x).symm

lemma mod_succ_pow_div (v a : Nat) : v % 2 ^ (a + 1) / 2 ^ a = v / 2 ^ a % 2 := by
  have h1 : v % 2 ^ (a + 1) / 2 ^ a < 2 := by
    apply Nat.div_lt_of_lt_mul
    have h : v % 2 ^ (a + 1) < 2 ^ (a + 1) := Nat.mod_lt _ (Nat.two_pow_pos _)
    have h2 : 2 ^ (a + 1) = 2 ^ a * 2 := pow_succ 2 a
    omega
  have h2 : Nat.testBit (v % 2 ^ (a + 1)) a = Nat.testBit v a := by
    simp [Nat.testBit_mod_two_pow]
  rw [Nat.testBit_to_div_mod, Nat.testBit_to_div_mod, decide_eq_decide] at h2
  have h3 : v % 2 ^ (a + 1) / 2 ^ a = v % 2 ^ (a + 1) / 2 ^ a % 2 := (Nat.mod_eq_of_lt h1).symm
  rw [h3]
  omega

lemma add_mul_pow_mod (c v w k : Nat) (hk : k ≤ w) : (c * 2 ^ w + v) % 2 ^ k = v % 2 ^ k := by
  rw [show (2 : Nat) ^ w = 2 ^ (w - k) * 2 ^ k by rw [← pow_add]; congr 1; omega]
  rw [show c * (2 ^ (w - k) * 2 ^ k) = c * 2 ^ (w - k) * 2 ^ k by ring]
  rw [Nat.add_comm, Nat.add_mul_mod_self_right]

lemma add_mul_pow_div (c v w k : Nat) (hk : k ≤ w) :
    (c * 2 ^ w + v) / 2 ^ k = c * 2 ^ (w - k) + v / 2 ^ k := by
  rw [show (2 : Nat) ^ w = 2 ^ k * 2 ^ (w - k) by rw [← pow_add]; congr 1; omega]
  rw [show c * (2 ^ k * 2 ^ (w - k)) = 2 ^ k * (c * 2 ^ (w - k)) by ring]
  rw [Nat.mul_add_div (Nat.two_pow_pos _)]

lemma and_pow_ne_zero_iff (x k : Nat) : (x &&& 2 ^ k ≠ 0) ↔ Nat.testBit x k = true := by
  rw [Nat.and_two_pow]
  cases h : Nat.testBit x k <;> simp [h, Nat.pos_iff_ne_zero.mp (Nat.two_pow_pos k)]

lemma shl_msb (w j v : Nat) (hj : j < w) :
    ((v <<< j) &&& 2 ^ (w - 1) ≠ 0) ↔ v / 2 ^ (w - 1 - j) % 2 = 1 := by
  rw [and_pow_ne_zero_iff, Nat.testBit_shiftLeft]
  have hge : w - 1 ≥ j := by omega
  simp [hge, Nat.testBit_to_div_mod]

lemma rotl_msb (w j v : Nat) (hj : j < w) (hv : v < 2 ^ w) :
    rotl w j v / 2 ^ (w - 1) = v / 2 ^ (w - 1 - j) % 2 := by
  have hPQ : 2 ^ (w - 1) = 2 ^ (w - j - 1) * 2 ^ j := by
    rw [← pow_add]; congr 1; omega
  have hb1 : 2 ^ (w - j - 1) * ((v % 2 ^ (w - j)) / 2 ^ (w - j - 1))
      + (v % 2 ^ (w - j)) % 2 ^ (w - j - 1) = v % 2 ^ (w - j) := Nat.div_add_mod _ _
  have ha : v / 2 ^ (w - j) < 2 ^ j := by
    apply Nat.div_lt_of_lt_mul
    rw [← pow_add, show w - j + j = w by omega]
    exact hv
  have hc : (v % 2 ^ (w - j)) % 2 ^ (w - j - 1) < 2 ^ (w - j - 1) :=
    Nat.mod_lt _ (Nat.two_pow_pos _)
  have hx : rotl w j v = (2 ^ (w - j - 1) * 2 ^ j) * ((v % 2 ^ (w - j)) / 2 ^ (w - j - 1))
      + ((v % 2 ^ (w - j)) % 2 ^ (w - j - 1) * 2 ^ j + v / 2 ^ (w - j)) := by
    rw [rotl]
    conv_lhs => rw [← hb1]
    ring
  have hsmall : (v % 2 ^ (w - j)) % 2 ^ (w - j - 1) * 2 ^ j + v / 2 ^ (w - j)
      < 2 ^ (w - j - 1) * 2 ^ j := by
    have h2 : (v % 2 ^ (w - j)) % 2 ^ (w - j - 1) * 2 ^ j ≤ (2 ^ (w - j - 1) - 1) * 2 ^ j :=
      Nat.mul_le_mul_right _ (by omega)
    have h3 : (2 ^ (w - j - 1) - 1) * 2 ^ j = 2 ^ (w - j - 1) * 2 ^ j - 1 * 2 ^ j :=
      Nat.sub_mul _ _ _
    have h5 : (0 : Nat) < 2 ^ j := Nat.two_pow_pos _
    have h6 : (0 : Nat) < 2 ^ (w - j - 1) := Nat.two_pow_pos _
    have h7 : 2 ^ j ≤ 2 ^ (w - j - 1) * 2 ^ j := Nat.le_mul_of_pos_left _ h6
    omega
  rw [hx, hPQ, Nat.mul_add_div (by positivity), Nat.div_eq_of_lt hsmall, Nat.add_zero]
  have hmd := mod_succ_pow_div v (w - j - 1)
  rw [show w - j - 1 + 1 = w - j by omega] at hmd
  rw [hmd, show w - 1 - j = w - j - 1 by omega]

lemma rotr_lsb (w j v : Nat) (hj : j < w) :
    rotr w j v % 2 = v / 2 ^ j % 2 := by
  rw [rotr]
  rw [show (2 : Nat) ^ (w - j) = 2 * 2 ^ (w - j - 1) by rw [← pow_succ']; congr 1; omega]
  rw [show v % 2 ^ j * (2 * 2 ^ (w - j - 1)) = v % 2 ^ j * 2 ^ (w - j - 1) * 2 by ring]
  rw [Nat.add_mul_mod_self_right]

lemma rotate_of_bridge (w r c : Nat) (hw : 1 ≤ w) (hr : r < 2 ^ w) :
    ((r ^^^ c) &&& 2 ^ (w - 1) != 0)
      = ((c &&& 2 ^ (w - 1) != 0) != decide (r / 2 ^ (w - 1) = 1)) := by
  have hrd : r / 2 ^ (w - 1) < 2 := by
    have h2 : 2 ^ w = 2 ^ (w - 1) * 2 := by
      rw [← pow_succ]; congr 1; omega
    exact Nat.div_lt_of_lt_mul (show r < 2 ^ (w - 1) * 2 by omega)
  have hrt : Nat.testBit r (w - 1) = decide (r / 2 ^ (w - 1) % 2 = 1) := Nat.testBit_to_div_mod
  have hmain : decide (r / 2 ^ (w - 1) = 1) = Nat.testBit r (w - 1) := by
    rw [hrt, decide_eq_decide]
    generalize r / 2 ^ (w - 1) = X at hrd ⊢
    omega
  rw [hmain, Nat.and_two_pow, Nat.and_two_pow, Nat.testBit_xor]
  have hne : (2 : Nat) ^ (w - 1) ≠ 0 := Nat.pos_iff_ne_zero.mp (Nat.two_pow_pos _)
  cases h1 : Nat.testBit r (w - 1) <;> cases h2 : Nat.testBit c (w - 1) <;> simp [hne]

lemma rol_code (w s v : Nat) (hs1 : 1 ≤ s) (hsw : s < w) (hv : v < 2 ^ w) :
    ((v <<< s) ||| (v >>> (w - s))) &&& (2 ^ w - 1) = rotl w s v := by
  rw [Nat.shiftLeft_eq, Nat.shiftRight_eq_div_pow, Nat.and_pow_two_sub_one_eq_mod]
  have hq : v / 2 ^ (w - s) < 2 ^ s := by
    apply Nat.div_lt_of_lt_mul
    rw [← pow_add, show w - s + s = w by omega]
    exact hv
  rw [or_add_of_lt v (v / 2 ^ (w - s)) s hq]
  have hVsplit : v * 2 ^ s = 2 ^ w * (v / 2 ^ (w - s)) + (v % 2 ^ (w - s)) * 2 ^ s := by
    conv_lhs => rw [← Nat.div_add_mod v (2 ^ (w - s))]
    rw [show (2 : Nat) ^ w = 2 ^ (w - s) * 2 ^ s by rw [← pow_add]; congr 1; omega]
    ring
  rw [hVsplit, Nat.add_assoc, Nat.mul_add_mod]
  have hXlt : (v % 2 ^ (w - s)) * 2 ^ s + v / 2 ^ (w - s) < 2 ^ w :=
    rotl_lt w s v (by omega) hv
  rw [Nat.mod_eq_of_lt hXlt]
  rfl

lemma ror_code (w s v : Nat) (hs1 : 1 ≤ s) (hsw : s < w) (hv : v < 2 ^ w) :
    ((v >>> s) ||| (v <<< (w - s))) &&& (2 ^ w - 1) = rotr w s v := by
  rw [Nat.shiftLeft_eq, Nat.shiftRight_eq_div_pow, Nat.and_pow_two_sub_one_eq_mod]
  have hb : v / 2 ^ s < 2 ^ (w - s) := by
    apply Nat.div_lt_of_lt_mul
    rw [← pow_add, show s + (w - s) = w by omega]
    exact hv
  rw [Nat.lor_comm, or_add_of_lt v (v / 2 ^ s) (w - s) hb]
  have hVsplit : v * 2 ^ (w - s) = 2 ^ w * (v / 2 ^ s) + (v % 2 ^ s) * 2 ^ (w - s) := by
    conv_lhs => rw [← Nat.div_add_mod v (2 ^ s)]
    rw [show (2 : Nat) ^ w = 2 ^ s * 2 ^ (w - s) by rw [← pow_add]; congr 1; omega]
    ring
  rw [hVsplit, Nat.add_assoc, Nat.mul_add_mod]
  have hXlt : (v % 2 ^ s) * 2 ^ (w - s) + v / 2 ^ s < 2 ^ w := by
    have h := rotr_lt w s v (by omega) hv
    rw [rotr] at h
    omega
  rw [Nat.mod_eq_of_lt hXlt, rotr]
  exact Nat.add_comm _ _

lemma rcl_decomp (w s v c : Nat) (hs1 : 1 ≤ s) (hsw : s ≤ w) (hv : v < 2 ^ w) (hc : c < 2) :
    rotl (w + 1) s (c * 2 ^ w + v)
      = v / 2 ^ (w - s) % 2 * 2 ^ w
        + (v % 2 ^ (w - s) * 2 ^ s + (c * 2 ^ (s - 1) + v / 2 ^ (w + 1 - s))) ∧
    v % 2 ^ (w - s) * 2 ^ s + (c * 2 ^ (s - 1) + v / 2 ^ (w + 1 - s)) < 2 ^ w := by
  have hk1 : w + 1 - s ≤ w := by omega
  have humod : (c * 2 ^ w + v) % 2 ^ (w + 1 - s) = v % 2 ^ (w + 1 - s) :=
    add_mul_pow_mod c v w _ hk1
  have hudiv : (c * 2 ^ w + v) / 2 ^ (w + 1 - s) = c * 2 ^ (s - 1) + v / 2 ^ (w + 1 - s) := by
    rw [add_mul_pow_div c v w _ hk1, show w - (w + 1 - s) = s - 1 by omega]
  have htb : v % 2 ^ (w + 1 - s) / 2 ^ (w - s) = v / 2 ^ (w - s) % 2 := by
    have h := mod_succ_pow_div v (w - s)
    rw [show w - s + 1 = w + 1 - s by omega] at h
    exact h
  have hlo : v % 2 ^ (w + 1 - s) % 2 ^ (w - s) = v % 2 ^ (w - s) :=
    Nat.mod_mod_of_dvd v (pow_dvd_pow 2 (by omega))
  have hsplit : 2 ^ (w - s) * (v % 2 ^ (w + 1 - s) / 2 ^ (w - s)) + v % 2 ^ (w + 1 - s) % 2 ^ (w - s)
      = v % 2 ^ (w + 1 - s) := Nat.div_add_mod _ _
  have hWS : 2 ^ (w - s) * 2 ^ s = 2 ^ w := by
    rw [← pow_add]; congr 1; omega
  have hvk : v / 2 ^ (w + 1 - s) < 2 ^ (s - 1) := by
    apply Nat.div_lt_of_lt_mul
    rw [← pow_add, show w + 1 - s + (s - 1) = w by omega]
    exact hv
  have hS : 2 ^ s = 2 * 2 ^ (s - 1) := by
    rw [← pow_succ']; congr 1; omega
  have hbound : v % 2 ^ (w - s) * 2 ^ s + (c * 2 ^ (s - 1) + v / 2 ^ (w + 1 - s)) < 2 ^ w := by
    have h1 : v % 2 ^ (w - s) < 2 ^ (w - s) := Nat.mod_lt _ (Nat.two_pow_pos _)
    have h2 : v % 2 ^ (w - s) * 2 ^ s ≤ (2 ^ (w - s) - 1) * 2 ^ s :=
      Nat.mul_le_mul_right _ (by omega)
    have h3 : (2 ^ (w - s) - 1) * 2 ^ s = 2 ^ (w - s) * 2 ^ s - 1 * 2 ^ s := Nat.sub_mul _ _ _
    have h4 : c * 2 ^ (s - 1) ≤ 1 * 2 ^ (s - 1) := Nat.mul_le_mul_right _ (by omega)
    have h5 : (0 : Nat) < 2 ^ s := Nat.two_pow_pos _
    have h6 : (0 : Nat) < 2 ^ (s - 1) := Nat.two_pow_pos _
    have h7 : 2 ^ s ≤ 2 ^ (w - s) * 2 ^ s := Nat.le_mul_of_pos_left _ (Nat.two_pow_pos _)
    omega
  refine ⟨?_, hbound⟩
  rw [show rotl (w + 1) s (c * 2 ^ w + v)
      = ((c * 2 ^ w + v) % 2 ^ (w + 1 - s)) * 2 ^ s + (c * 2 ^ w + v) / 2 ^ (w + 1 - s)
      from rfl]
  rw [humod, hudiv]
  conv_lhs => rw [← hsplit]
  rw [htb, hlo, ← hWS]
  ring

lemma rcl_code (w s v c : Nat) (hs1 : 1 ≤ s) (hsw : s ≤ w) (hv : v < 2 ^ w) (hc : c < 2) :
    ((v <<< s) ||| (c <<< (s - 1)) ||| (v >>> (w + 1 - s))) &&& (2 ^ w - 1)
      = rotl (w + 1) s (c * 2 ^ w + v) % 2 ^ w := by
  obtain ⟨hval, hbound⟩ := rcl_decomp w s v c hs1 hsw hv hc
  have hS : 2 ^ s = 2 * 2 ^ (s - 1) := by
    rw [← pow_succ']; congr 1; omega
  have hvk : v / 2 ^ (w + 1 - s) < 2 ^ (s - 1) := by
    apply Nat.div_lt_of_lt_mul
    rw [← pow_add, show w + 1 - s + (s - 1) = w by omega]
    exact hv
  have hcs : c * 2 ^ (s - 1) ≤ 1 * 2 ^ (s - 1) := Nat.mul_le_mul_right _ (by omega)
  have hinner : c * 2 ^ (s - 1) + v / 2 ^ (w + 1 - s) < 2 ^ s := by omega
  rw [Nat.shiftLeft_eq, Nat.shiftLeft_eq, Nat.shiftRight_eq_div_pow]
  rw [Nat.or_assoc]
  rw [or_add_of_lt c (v / 2 ^ (w + 1 - s)) (s - 1) hvk]
  rw [or_add_of_lt v (c * 2 ^ (s - 1) + v / 2 ^ (w + 1 - s)) s hinner]
  rw [Nat.and_pow_two_sub_one_eq_mod]
  have hVsplit : v * 2 ^ s = 2 ^ w * (v / 2 ^ (w - s)) + v % 2 ^ (w - s) * 2 ^ s := by
    conv_lhs => rw [← Nat.div_add_mod v (2 ^ (w - s))]
    rw [show (2 : Nat) ^ w = 2 ^ (w - s) * 2 ^ s by rw [← pow_add]; congr 1; omega]
    ring
  rw [hVsplit, Nat.add_assoc, Nat.mul_add_mod]
  rw [Nat.mod_eq_of_lt hbound]
  rw [hval, show v / 2 ^ (w - s) % 2 * 2 ^ w = 2 ^ w * (v / 2 ^ (w - s) % 2) by ring]
  rw [Nat.mul_add_mod, Nat.mod_eq_of_lt hbound]

lemma rcl_cf (w s v c : Nat) (hs1 : 1 ≤ s) (hsw : s ≤ w) (hv : v < 2 ^ w) (hc : c < 2) :
    rotl (w + 1) s (c * 2 ^ w + v) / 2 ^ w = v / 2 ^ (w - s) % 2 := by
  obtain ⟨hval, hbound⟩ := rcl_decomp w s v c hs1 hsw hv hc
  rw [hval, show v / 2 ^ (w - s) % 2 * 2 ^ w = 2 ^ w * (v / 2 ^ (w - s) % 2) by ring]
  rw [Nat.mul_add_div (Nat.two_pow_pos _), Nat.div_eq_of_lt hbound, Nat.add_zero]

lemma rcr_decomp (w s v c : Nat) (hs1 : 1 ≤ s) (hsw : s ≤ w) (hv : v < 2 ^ w) (hc : c < 2) :
    rotr (w + 1) s (c * 2 ^ w + v)
      = v / 2 ^ (s - 1) % 2 * 2 ^ w
        + (c * 2 ^ (w - s) + v / 2 ^ s + v % 2 ^ (s - 1) * 2 ^ (w + 1 - s)) ∧
    c * 2 ^ (w - s) + v / 2 ^ s + v % 2 ^ (s - 1) * 2 ^ (w + 1 - s) < 2 ^ w := by
  have hks : s ≤ w := hsw
  have humod : (c * 2 ^ w + v) % 2 ^ s = v % 2 ^ s := add_mul_pow_mod c v w s hks
  have hudiv : (c * 2 ^ w + v) / 2 ^ s = c * 2 ^ (w - s) + v / 2 ^ s :=
    add_mul_pow_div c v w s hks
  have htb : v % 2 ^ s / 2 ^ (s - 1) = v / 2 ^ (s - 1) % 2 := by
    have h := mod_succ_pow_div v (s - 1)
    rw [show s - 1 + 1 = s by omega] at h
    exact h
  have hlo : v % 2 ^ s % 2 ^ (s - 1) = v % 2 ^ (s - 1) :=
    Nat.mod_mod_of_dvd v (pow_dvd_pow 2 (by omega))
  have hsplit : 2 ^ (s - 1) * (v % 2 ^ s / 2 ^ (s - 1)) + v % 2 ^ s % 2 ^ (s - 1) = v % 2 ^ s :=
    Nat.div_add_mod _ _
  have hWS : 2 ^ (s - 1) * 2 ^ (w + 1 - s) = 2 ^ w := by
    rw [← pow_add]; congr 1; omega
  have hvs : v / 2 ^ s < 2 ^ (w - s) := by
    apply Nat.div_lt_of_lt_mul
    rw [← pow_add, show s + (w - s) = w by omega]
    exact hv
  have hK2 : 2 ^ (w + 1 - s) = 2 * 2 ^ (w - s) := by
    rw [← pow_succ']; congr 1; omega
  have hbound : c * 2 ^ (w - s) + v / 2 ^ s + v % 2 ^ (s - 1) * 2 ^ (w + 1 - s) < 2 ^ w := by
    have h1 : v % 2 ^ (s - 1) < 2 ^ (s - 1) := Nat.mod_lt _ (Nat.two_pow_pos _)
    have h2 : v % 2 ^ (s - 1) * 2 ^ (w + 1 - s) ≤ (2 ^ (s - 1) - 1) * 2 ^ (w + 1 - s) :=
      Nat.mul_le_mul_right _ (by omega)
    have h3 : (2 ^ (s - 1) - 1) * 2 ^ (w + 1 - s)
        = 2 ^ (s - 1) * 2 ^ (w + 1 - s) - 1 * 2 ^ (w + 1 - s) := Nat.sub_mul _ _ _
    have h4 : c * 2 ^ (w - s) ≤ 1 * 2 ^ (w - s) := Nat.mul_le_mul_right _ (by omega)
    have h5 : (0 : Nat) < 2 ^ (w - s) := Nat.two_pow_pos _
    have h6 : (0 : Nat) < 2 ^ (w + 1 - s) := Nat.two_pow_pos _
    have h7 : 2 ^ (w + 1 - s) ≤ 2 ^ (s - 1) * 2 ^ (w + 1 - s) :=
      Nat.le_mul_of_pos_left _ (Nat.two_pow_pos _)
    omega
  refine ⟨?_, hbound⟩
  rw [show rotr (w + 1) s (c * 2 ^ w + v)
      = (c * 2 ^ w + v) / 2 ^ s + ((c * 2 ^ w + v) % 2 ^ s) * 2 ^ (w + 1 - s) from rfl]
  rw [humod, hudiv]
  conv_lhs => rw [← hsplit]
  rw [htb, hlo, ← hWS]
  ring

lemma rcr_code (w s v c : Nat) (hs1 : 1 ≤ s) (hsw : s ≤ w) (hv : v < 2 ^ w) (hc : c < 2) :
    ((v >>> s) ||| (c <<< (w - s)) ||| (v <<< (w + 1 - s))) &&& (2 ^ w - 1)
      = rotr (w + 1) s (c * 2 ^ w + v) % 2 ^ w := by
  obtain ⟨hval, hbound⟩ := rcr_decomp w s v c hs1 hsw hv hc
  have hvs : v / 2 ^ s < 2 ^ (w - s) := by
    apply Nat.div_lt_of_lt_mul
    rw [← pow_add, show s + (w - s) = w by omega]
    exact hv
  have hcs : c * 2 ^ (w - s) ≤ 1 * 2 ^ (w - s) := Nat.mul_le_mul_right _ (by omega)
  have hK2 : 2 ^ (w + 1 - s) = 2 * 2 ^ (w - s) := by
    rw [← pow_succ']; congr 1; omega
  rw [Nat.shiftLeft_eq, Nat.shiftLeft_eq, Nat.shiftRight_eq_div_pow]
  rw [Nat.lor_comm (v / 2 ^ s) (c * 2 ^ (w - s))]
  rw [or_add_of_lt c (v / 2 ^ s) (w - s) hvs]
  rw [Nat.and_distrib_right]
  have hsum : c * 2 ^ (w - s) + v / 2 ^ s < 2 ^ (w + 1 - s) := by omega
  have hmask1 : (c * 2 ^ (w - s) + v / 2 ^ s) &&& (2 ^ w - 1)
      = c * 2 ^ (w - s) + v / 2 ^ s := by
    rw [Nat.and_pow_two_sub_one_eq_mod]
    apply Nat.mod_eq_of_lt
    calc c * 2 ^ (w - s) + v / 2 ^ s < 2 ^ (w + 1 - s) := hsum
    _ ≤ 2 ^ w := Nat.pow_le_pow_right (by norm_num) (by omega)
  have hmask2 : (v * 2 ^ (w + 1 - s)) &&& (2 ^ w - 1) = v % 2 ^ (s - 1) * 2 ^ (w + 1 - s) := by
    rw [Nat.and_pow_two_sub_one_eq_mod]
    rw [show (2 : Nat) ^ w = 2 ^ (s - 1) * 2 ^ (w + 1 - s) by rw [← pow_add]; congr 1; omega]
    exact Nat.mul_mod_mul_right _ _ _
  rw [hmask1, hmask2]
  rw [Nat.lor_comm, or_add_of_lt (v % 2 ^ (s - 1)) (c * 2 ^ (w - s) + v / 2 ^ s) (w + 1 - s) hsum]
  rw [hval, show v / 2 ^ (s - 1) % 2 * 2 ^ w = 2 ^ w * (v / 2 ^ (s - 1) % 2) by ring]
  rw [Nat.mul_add_mod, Nat.mod_eq_of_lt hbound]
  omega

lemma rcr_cf (w s v c : Nat) (hs1 : 1 ≤ s) (hsw : s ≤ w) (hv : v < 2 ^ w) (hc : c < 2) :
    rotr (w + 1) s (c * 2 ^ w + v) / 2 ^ w = v / 2 ^ (s - 1) % 2 := by
  obtain ⟨hval, hbound⟩ := rcr_decomp w s v c hs1 hsw hv hc
  rw [hval, show v / 2 ^ (s - 1) % 2 * 2 ^ w = 2 ^ w * (v / 2 ^ (s - 1) % 2) by ring]
  rw [Nat.mul_add_div (Nat.two_pow_pos _), Nat.div_eq_of_lt hbound, Nat.add_zero]

lemma rotl_iterate_mod (w src v : Nat) (hw : 1 ≤ w) (hv : v < 2 ^ w) :
    (rotlStep w)^[src] v = rotl w (src % w) v := by
  rw [iterate_mod_cycle (rotlStep w) w v (rotl_full w v hv) src]
  exact rotl_iterate w (src % w) v (le_of_lt (Nat.mod_lt _ (by omega))) hv

lemma rotr_iterate_mod (w src v : Nat) (hw : 1 ≤ w) (hv : v < 2 ^ w) :
    (rotrStep w)^[src] v = rotr w (src % w) v := by
  rw [iterate_mod_cycle (rotrStep w) w v (rotr_full w v hv) src]
  exact rotr_iterate w (src % w) v (le_of_lt (Nat.mod_lt _ (by omega))) hv

lemma rotl_lsb (w s v : Nat) (hs : 1 ≤ s) : rotl w s v % 2 = v / 2 ^ (w - s) % 2 := by
  rw [rotl, show (2 : Nat) ^ s = 2 ^ (s - 1) * 2 by rw [← pow_succ]; congr 1; omega]
  rw [show v % 2 ^ (w - s) * (2 ^ (s - 1) * 2) = v % 2 ^ (w - s) * 2 ^ (s - 1) * 2 by ring]
  rw [Nat.add_comm, Nat.add_mul_mod_self_right]

lemma rotr_msb (w s v : Nat) (hs : 1 ≤ s) (hsw : s ≤ w) (hv : v < 2 ^ w) :
    rotr w s v / 2 ^ (w - 1) = v / 2 ^ (s - 1) % 2 := by
  have htb : v % 2 ^ s / 2 ^ (s - 1) = v / 2 ^ (s - 1) % 2 := by
    have h := mod_succ_pow_div v (s - 1)
    rw [show s - 1 + 1 = s by omega] at h
    exact h
  have hlo : v % 2 ^ s % 2 ^ (s - 1) = v % 2 ^ (s - 1) :=
    Nat.mod_mod_of_dvd v (pow_dvd_pow 2 (by omega))
  have hsplit : 2 ^ (s - 1) * (v % 2 ^ s / 2 ^ (s - 1)) + v % 2 ^ s % 2 ^ (s - 1) = v % 2 ^ s :=
    Nat.div_add_mod _ _
  have hW1 : 2 ^ (s - 1) * 2 ^ (w - s) = 2 ^ (w - 1) := by
    rw [← pow_add]; congr 1; omega
  have hvs : v / 2 ^ s < 2 ^ (w - s) := by
    apply Nat.div_lt_of_lt_mul
    rw [← pow_add, show s + (w - s) = w by omega]
    exact hv
  have hx : rotr w s v = 2 ^ (w - 1) * (v / 2 ^ (s - 1) % 2)
      + (v % 2 ^ (s - 1) * 2 ^ (w - s) + v / 2 ^ s) := by
    rw [rotr]
    conv_lhs => rw [← hsplit]
    rw [htb, hlo, ← hW1]
    ring
  have hsmall : v % 2 ^ (s - 1) * 2 ^ (w - s) + v / 2 ^ s < 2 ^ (w - 1) := by
    have h1 : v % 2 ^ (s - 1) < 2 ^ (s - 1) := Nat.mod_lt _ (Nat.two_pow_pos _)
    have h2 : v % 2 ^ (s - 1) * 2 ^ (w - s) ≤ (2 ^ (s - 1) - 1) * 2 ^ (w - s) :=
      Nat.mul_le_mul_right _ (by omega)
    have h3 : (2 ^ (s - 1) - 1) * 2 ^ (w - s) = 2 ^ (s - 1) * 2 ^ (w - s) - 1 * 2 ^ (w - s) :=
      Nat.sub_mul _ _ _
    have h6 : (0 : Nat) < 2 ^ (w - s) := Nat.two_pow_pos _
    have h7 : 2 ^ (w - s) ≤ 2 ^ (s - 1) * 2 ^ (w - s) :=
      Nat.le_mul_of_pos_left _ (Nat.two_pow_pos _)
    omega
  rw [hx, Nat.mul_add_div (Nat.two_pow_pos _), Nat.div_eq_of_lt hsmall, Nat.add_zero]

lemma bool_eq_of_iff {a b : Bool} (h : a = true ↔ b = true) : a = b := by
  cases a <;> cases b <;> simp_all

/-- Translation of X86.setRotateResult (x86.js lines 2890-2894): CF is set iff
`carry & size` is nonzero and OF iff `(result ^ carry) & size` is nonzero,
where `size` is the width's sign-bit mask (X86.RESULT.BYTE = 0x80,
X86.RESULT.WORD = 0x8000).  Returned as the pair (CF, OF). -/
def setRotateResult (result carry size : Nat) : Bool × Bool :=
  ((carry &&& size) != 0, ((result ^^^ carry) &&& size) != 0)

/-- Translation of X86.fnROLb (x86.js lines 2034-2062).  The returned pair is
(result, flags): `none` when `src` is zero (no flag update), otherwise the
(CF, OF) pair computed by setRotateResult. -/
def fnROLb (dst src : Nat) : Nat × Option (Bool × Bool) :=
  if src = 0 then (dst, none)
  else
    let shift := src &&& 0x7
    if shift = 0 then (dst, some (setRotateResult dst (dst <<< 7) 0x80))
    else
      let result := ((dst <<< shift) ||| (dst >>> (8 - shift))) &&& 0xFF
      (result, some (setRotateResult result (dst <<< (shift - 1)) 0x80))

/-- Spec-reference rotate: the `n`-fold iterate of the one-bit left rotation. -/
def rotlN (w n v : Nat) : Nat := (rotlStep w)^[n] v

/-- Spec-reference rotate: the `n`-fold iterate of the one-bit right rotation. -/
def rotrN (w n v : Nat) : Nat := (rotrStep w)^[n] v

/-- Spec-reference postcondition package for a rotate that produced the value
`r` at width `w` with carry-out bit `b`: the stored result is `r`, CF is `b`
(the last bit rotated out), and OF is CF XOR the most significant bit of the
result, exactly the `setRotateResult` postcondition claimed by the spec. -/
def rotPost (w r : Nat) (b : Bool) : Nat × Option (Bool × Bool) :=
  (r, some (b, b != decide (r / 2 ^ (w - 1) = 1)))

lemma fnROLb_spec (dst src : Nat) (hv : dst < 0x100) (hs : src ≠ 0) :
    fnROLb dst src = rotPost 8 (rotlN 8 src dst) (decide (rotlN 8 src dst % 2 = 1)) := by
  have hiter : rotlN 8 src dst = rotl 8 (src % 8) dst :=
    rotl_iterate_mod 8 src dst (by omega) hv
  have hmask : src &&& 0x7 = src % 8 := by
    rw [show (0x7 : Nat) = 2 ^ 3 - 1 from rfl, Nat.and_pow_two_sub_one_eq_mod]
  unfold fnROLb
  rw [if_neg hs, hmask]
  by_cases h0 : src % 8 = 0
  · rw [if_pos h0]
    have hr : rotlN 8 src dst = dst := by rw [hiter, h0, rotl_zero 8 dst hv]
    have hcf : ((dst <<< 7) &&& 0x80 != 0) = decide (dst % 2 = 1) := by
      apply bool_eq_of_iff
      rw [bne_iff_ne, decide_eq_true_eq]
      have h := shl_msb 8 7 dst (by omega)
      norm_num at h ⊢
      exact h
    have hof := rotate_of_bridge 8 dst (dst <<< 7) (by omega) hv
    rw [show (2 : Nat) ^ (8 - 1) = 0x80 from rfl] at hof
    rw [rotPost, hr, setRotateResult, hcf, hof, hcf]
    norm_num
  · rw [if_neg h0]
    have hs1 : 1 ≤ src % 8 := by omega
    have hsw : src % 8 < 8 := Nat.mod_lt _ (by omega)
    have hres : ((dst <<< (src % 8)) ||| (dst >>> (8 - src % 8))) &&& 0xFF
        = rotl 8 (src % 8) dst := by
      have h := rol_code 8 (src % 8) dst hs1 hsw hv
      rw [show ((2 : Nat) ^ 8 - 1) = 0xFF from rfl] at h
      exact h
    have hlsb : rotl 8 (src % 8) dst % 2 = dst / 2 ^ (8 - src % 8) % 2 :=
      rotl_lsb 8 (src % 8) dst hs1
    have hcf : ((dst <<< (src % 8 - 1)) &&& 0x80 != 0)
        = decide (rotl 8 (src % 8) dst % 2 = 1) := by
      apply bool_eq_of_iff
      rw [bne_iff_ne, decide_eq_true_eq, hlsb]
      have h := shl_msb 8 (src % 8 - 1) dst (by omega)
      rw [show 8 - 1 - (src % 8 - 1) = 8 - src % 8 by omega] at h
      rw [show (2 : Nat) ^ (8 - 1) = 0x80 from rfl] at h
      exact h
    have hof := rotate_of_bridge 8 (rotl 8 (src % 8) dst) (dst <<< (src % 8 - 1)) (by omega)
      (rotl_lt 8 (src % 8) dst (by omega) hv)
    rw [show (2 : Nat) ^ (8 - 1) = 0x80 from rfl] at hof
    simp only [setRotateResult]
    rw [rotPost, hiter, hres, hcf, hof, hcf]
    norm_num

/-- Translation of X86.fnROLw (x86.js lines 2072-2096). -/
def fnROLw (dst src : Nat) : Nat × Option (Bool × Bool) :=
  if src = 0 then (dst, none)
  else
    let shift := src &&& 0xF
    if shift = 0 then (dst, some (setRotateResult dst (dst <<< 15) 0x8000))
    else
      let result := ((dst <<< shift) ||| (dst >>> (16 - shift))) &&& 0xFFFF
      (result, some (setRotateResult result (dst <<< (shift - 1)) 0x8000))

/-- Translation of X86.fnRORb (x86.js lines 2106-2134). -/
def fnRORb (dst src : Nat) : Nat × Option (Bool × Bool) :=
  if src = 0 then (dst, none)
  else
    let shift := src &&& 0x7
    if shift = 0 then (dst, some (setRotateResult dst dst 0x80))
    else
      let result := ((dst >>> shift) ||| (dst <<< (8 - shift))) &&& 0xFF
      (result, some (setRotateResult result (dst <<< (8 - shift)) 0x80))

/-- Translation of X86.fnRORw (x86.js lines 2144-2170). -/
def fnRORw (dst src : Nat) : Nat × Option (Bool × Bool) :=
  if src = 0 then (dst, none)
  else
    let shift := src &&& 0xF
    if shift = 0 then (dst, some (setRotateResult dst dst 0x8000))
    else
      let result := ((dst >>> shift) ||| (dst <<< (16 - shift))) &&& 0xFFFF
      (result, some (setRotateResult result (dst <<< (16 - shift)) 0x8000))

lemma fnROLw_spec (dst src : Nat) (hv : dst < 0x10000) (hs : src ≠ 0) :
    fnROLw dst src = rotPost 16 (rotlN 16 src dst) (decide (rotlN 16 src dst % 2 = 1)) := by
  have hiter : rotlN 16 src dst = rotl 16 (src % 16) dst :=
    rotl_iterate_mod 16 src dst (by omega) hv
  have hmask : src &&& 0xF = src % 16 := by
    rw [show (0xF : Nat) = 2 ^ 4 - 1 from rfl, Nat.and_pow_two_sub_one_eq_mod]
  unfold fnROLw
  rw [if_neg hs, hmask]
  by_cases h0 : src % 16 = 0
  · rw [if_pos h0]
    have hr : rotlN 16 src dst = dst := by rw [hiter, h0, rotl_zero 16 dst hv]
    have hcf : ((dst <<< 15) &&& 0x8000 != 0) = decide (dst % 2 = 1) := by
      apply bool_eq_of_iff
      rw [bne_iff_ne, decide_eq_true_eq]
      have h := shl_msb 16 15 dst (by omega)
      norm_num at h ⊢
      exact h
    have hof := rotate_of_bridge 16 dst (dst <<< 15) (by omega) hv
    rw [show (2 : Nat) ^ (16 - 1) = 0x8000 from rfl] at hof
    rw [rotPost, hr, setRotateResult, hcf, hof, hcf]
    norm_num
  · rw [if_neg h0]
    have hs1 : 1 ≤ src % 16 := by omega
    have hsw : src % 16 < 16 := Nat.mod_lt _ (by omega)
    have hres : ((dst <<< (src % 16)) ||| (dst >>> (16 - src % 16))) &&& 0xFFFF
        = rotl 16 (src % 16) dst := by
      have h := rol_code 16 (src % 16) dst hs1 hsw hv
      rw [show ((2 : Nat) ^ 16 - 1) = 0xFFFF from rfl] at h
      exact h
    have hlsb : rotl 16 (src % 16) dst % 2 = dst / 2 ^ (16 - src % 16) % 2 :=
      rotl_lsb 16 (src % 16) dst hs1
    have hcf : ((dst <<< (src % 16 - 1)) &&& 0x8000 != 0)
        = decide (rotl 16 (src % 16) dst % 2 = 1) := by
      apply bool_eq_of_iff
      rw [bne_iff_ne, decide_eq_true_eq, hlsb]
      have h := shl_msb 16 (src % 16 - 1) dst (by omega)
      rw [show 16 - 1 - (src % 16 - 1) = 16 - src % 16 by omega] at h
      rw [show (2 : Nat) ^ (16 - 1) = 0x8000 from rfl] at h
      exact h
    have hof := rotate_of_bridge 16 (rotl 16 (src % 16) dst) (dst <<< (src % 16 - 1)) (by omega)
      (rotl_lt 16 (src % 16) dst (by omega) hv)
    rw [show (2 : Nat) ^ (16 - 1) = 0x8000 from rfl] at hof
    simp only [setRotateResult]
    rw [rotPost, hiter, hres, hcf, hof, hcf]
    norm_num

lemma fnRORb_spec (dst src : Nat) (hv : dst < 0x100) (hs : src ≠ 0) :
    fnRORb dst src = rotPost 8 (rotrN 8 src dst) (decide (rotrN 8 src dst / 2 ^ 7 = 1)) := by
  have hiter : rotrN 8 src dst = rotr 8 (src % 8) dst :=
    rotr_iterate_mod 8 src dst (by omega) hv
  have hmask : src &&& 0x7 = src % 8 := by
    rw [show (0x7 : Nat) = 2 ^ 3 - 1 from rfl, Nat.and_pow_two_sub_one_eq_mod]
  unfold fnRORb
  rw [if_neg hs, hmask]
  by_cases h0 : src % 8 = 0
  · rw [if_pos h0]
    have hr : rotrN 8 src dst = dst := by rw [hiter, h0, rotr_zero 8 dst hv]
    have hcf : (dst &&& 0x80 != 0) = decide (dst / 2 ^ 7 = 1) := by
      apply bool_eq_of_iff
      rw [bne_iff_ne, decide_eq_true_eq]
      have h := shl_msb 8 0 dst (by omega)
      rw [Nat.shiftLeft_zero] at h
      norm_num at h ⊢
      have hd : dst / 128 < 2 := by omega
      constructor
      · intro hx
        have := h.mp hx
        omega
      · intro hx
        exact h.mpr (by omega)
    have hof := rotate_of_bridge 8 dst dst (by omega) hv
    rw [show (2 : Nat) ^ (8 - 1) = 0x80 from rfl] at hof
    rw [rotPost, hr, setRotateResult, hcf, hof, hcf]
    norm_num
  · rw [if_neg h0]
    have hs1 : 1 ≤ src % 8 := by omega
    have hsw : src % 8 < 8 := Nat.mod_lt _ (by omega)
    have hres : ((dst >>> (src % 8)) ||| (dst <<< (8 - src % 8))) &&& 0xFF
        = rotr 8 (src % 8) dst := by
      have h := ror_code 8 (src % 8) dst hs1 hsw hv
      rw [show ((2 : Nat) ^ 8 - 1) = 0xFF from rfl] at h
      exact h
    have hmsb : rotr 8 (src % 8) dst / 2 ^ 7 = dst / 2 ^ (src % 8 - 1) % 2 := by
      have h := rotr_msb 8 (src % 8) dst hs1 (by omega) hv
      rw [show (8 : Nat) - 1 = 7 from rfl] at h
      exact h
    have hcf : ((dst <<< (8 - src % 8)) &&& 0x80 != 0)
        = decide (rotr 8 (src % 8) dst / 2 ^ 7 = 1) := by
      apply bool_eq_of_iff
      rw [bne_iff_ne, decide_eq_true_eq, hmsb]
      have h := shl_msb 8 (8 - src % 8) dst (by omega)
      rw [show 8 - 1 - (8 - src % 8) = src % 8 - 1 by omega] at h
      rw [show (2 : Nat) ^ (8 - 1) = 0x80 from rfl] at h
      exact h
    have hof := rotate_of_bridge 8 (rotr 8 (src % 8) dst) (dst <<< (8 - src % 8)) (by omega)
      (rotr_lt 8 (src % 8) dst (by omega) hv)
    rw [show (2 : Nat) ^ (8 - 1) = 0x80 from rfl] at hof
    simp only [setRotateResult]
    rw [rotPost, hiter, hres, hcf, hof, hcf]
    norm_num

lemma fnRORw_spec (dst src : Nat) (hv : dst < 0x10000) (hs : src ≠ 0) :
    fnRORw dst src = rotPost 16 (rotrN 16 src dst) (decide (rotrN 16 src dst / 2 ^ 15 = 1)) := by
  have hiter : rotrN 16 src dst = rotr 16 (src % 16) dst :=
    rotr_iterate_mod 16 src dst (by omega) hv
  have hmask : src &&& 0xF = src % 16 := by
    rw [show (0xF : Nat) = 2 ^ 4 - 1 from rfl, Nat.and_pow_two_sub_one_eq_mod]
  unfold fnRORw
  rw [if_neg hs, hmask]
  by_cases h0 : src % 16 = 0
  · rw [if_pos h0]
    have hr : rotrN 16 src dst = dst := by rw [hiter, h0, rotr_zero 16 dst hv]
    have hcf : (dst &&& 0x8000 != 0) = decide (dst / 2 ^ 15 = 1) := by
      apply bool_eq_of_iff
      rw [bne_iff_ne, decide_eq_true_eq]
      have h := shl_msb 16 0 dst (by omega)
      rw [Nat.shiftLeft_zero] at h
      norm_num at h ⊢
      have hd : dst / 32768 < 2 := by omega
      constructor
      · intro hx
        have := h.mp hx
        omega
      · intro hx
        exact h.mpr (by omega)
    have hof := rotate_of_bridge 16 dst dst (by omega) hv
    rw [show (2 : Nat) ^ (16 - 1) = 0x8000 from rfl] at hof
    rw [rotPost, hr, setRotateResult, hcf, hof, hcf]
    norm_num
  · rw [if_neg h0]
    have hs1 : 1 ≤ src % 16 := by omega
    have hsw : src % 16 < 16 := Nat.mod_lt _ (by omega)
    have hres : ((dst >>> (src % 16)) ||| (dst <<< (16 - src % 16))) &&& 0xFFFF
        = rotr 16 (src % 16) dst := by
      have h := ror_code 16 (src % 16) dst hs1 hsw hv
      rw [show ((2 : Nat) ^ 16 - 1) = 0xFFFF from rfl] at h
      exact h
    have hmsb : rotr 16 (src % 16) dst / 2 ^ 15 = dst / 2 ^ (src % 16 - 1) % 2 := by
      have h := rotr_msb 16 (src % 16) dst hs1 (by omega) hv
      rw [show (16 : Nat) - 1 = 15 from rfl] at h
      exact h
    have hcf : ((dst <<< (16 - src % 16)) &&& 0x8000 != 0)
        = decide (rotr 16 (src % 16) dst / 2 ^ 15 = 1) := by
      apply bool_eq_of_iff
      rw [bne_iff_ne, decide_eq_true_eq, hmsb]
      have h := shl_msb 16 (16 - src % 16) dst (by omega)
      rw [show 16 - 1 - (16 - src % 16) = src % 16 - 1 by omega] at h
      rw [show (2 : Nat) ^ (16 - 1) = 0x8000 from rfl] at h
      exact h
    have hof := rotate_of_bridge 16 (rotr 16 (src % 16) dst) (dst <<< (16 - src % 16)) (by omega)
      (rotr_lt 16 (src % 16) dst (by omega) hv)
    rw [show (2 : Nat) ^ (16 - 1) = 0x8000 from rfl] at hof
    simp only [setRotateResult]
    rw [rotPost, hiter, hres, hcf, hof, hcf]
    norm_num

/-- Translation of X86.fnRCLb (x86.js lines 1874-1895).  `m` is the CPU's
nShiftCountMask field and `cf` the incoming carry flag (getCarry()). -/
def fnRCLb (dst src m : Nat) (cf : Bool) : Nat × Option (Bool × Bool) :=
  if src = 0 then (dst, none)
  else
    let carry : Nat := cond cf 1 0
    let shift := (src &&& m) % 9
    if shift = 0 then (dst, some (setRotateResult dst (carry <<< 7) 0x80))
    else
      let result := ((dst <<< shift) ||| (carry <<< (shift - 1)) ||| (dst >>> (9 - shift))) &&& 0xFF
      (result, some (setRotateResult result (dst <<< (shift - 1)) 0x80))

lemma fnRCLb_spec (dst src m : Nat) (cf : Bool) (hv : dst < 0x100) (hs : src ≠ 0) :
    fnRCLb dst src m cf
      = rotPost 8 (rotlN 9 (src &&& m) (cond cf 1 0 * 2 ^ 8 + dst) % 2 ^ 8)
          (decide (rotlN 9 (src &&& m) (cond cf 1 0 * 2 ^ 8 + dst) / 2 ^ 8 = 1)) := by
  have hc2 : (cond cf (1 : Nat) 0) < 2 := by cases cf <;> simp
  have hu : cond cf (1 : Nat) 0 * 2 ^ 8 + dst < 2 ^ 9 := by omega
  have hiter : rotlN 9 (src &&& m) (cond cf 1 0 * 2 ^ 8 + dst)
      = rotl 9 ((src &&& m) % 9) (cond cf 1 0 * 2 ^ 8 + dst) :=
    rotl_iterate_mod 9 (src &&& m) _ (by omega) hu
  unfold fnRCLb
  rw [if_neg hs]
  by_cases h0 : (src &&& m) % 9 = 0
  · rw [if_pos h0]
    have hr0 : rotl 9 ((src &&& m) % 9) (cond cf 1 0 * 2 ^ 8 + dst)
        = cond cf 1 0 * 2 ^ 8 + dst := by
      rw [h0]
      exact rotl_zero 9 _ hu
    have hmod : (cond cf (1 : Nat) 0 * 2 ^ 8 + dst) % 2 ^ 8 = dst := by
      have hgen : ∀ c : Nat, c < 2 → (c * 2 ^ 8 + dst) % 2 ^ 8 = dst := by
        intro c hc
        omega
      exact hgen _ hc2
    have hdiv : (cond cf (1 : Nat) 0 * 2 ^ 8 + dst) / 2 ^ 8 = cond cf 1 0 := by
      have hgen : ∀ c : Nat, c < 2 → (c * 2 ^ 8 + dst) / 2 ^ 8 = c := by
        intro c hc
        omega
      exact hgen _ hc2
    have hcf : ((cond cf (1 : Nat) 0 <<< 7) &&& 0x80 != 0) = decide (cond cf (1 : Nat) 0 = 1) := by
      apply bool_eq_of_iff
      rw [bne_iff_ne, decide_eq_true_eq]
      have h := shl_msb 8 7 (cond cf 1 0) (by omega)
      norm_num at h ⊢
      rw [h]
      constructor <;> intro hx <;> omega
    have hof := rotate_of_bridge 8 dst (cond cf 1 0 <<< 7) (by omega) hv
    rw [show (2 : Nat) ^ (8 - 1) = 0x80 from rfl] at hof
    rw [rotPost, hiter, hr0, hmod, hdiv, setRotateResult, hcf, hof, hcf]
    norm_num
  · rw [if_neg h0]
    have hs1 : 1 ≤ (src &&& m) % 9 := by omega
    have hs8 : (src &&& m) % 9 ≤ 8 := by
      have := Nat.mod_lt (src &&& m) (show 0 < 9 by norm_num)
      omega
    have hres : ((dst <<< ((src &&& m) % 9)) ||| (cond cf 1 0 <<< ((src &&& m) % 9 - 1))
          ||| (dst >>> (9 - (src &&& m) % 9))) &&& 0xFF
        = rotl 9 ((src &&& m) % 9) (cond cf 1 0 * 2 ^ 8 + dst) % 2 ^ 8 := by
      have h := rcl_code 8 ((src &&& m) % 9) dst (cond cf 1 0) hs1 hs8 hv hc2
      rw [show (8 : Nat) + 1 = 9 from rfl] at h
      rw [show ((2 : Nat) ^ 8 - 1) = 0xFF from rfl] at h
      exact h
    have hrcf : rotl 9 ((src &&& m) % 9) (cond cf 1 0 * 2 ^ 8 + dst) / 2 ^ 8
        = dst / 2 ^ (8 - (src &&& m) % 9) % 2 := by
      have h := rcl_cf 8 ((src &&& m) % 9) dst (cond cf 1 0) hs1 hs8 hv hc2
      rw [show (8 : Nat) + 1 = 9 from rfl] at h
      exact h
    have hcf : ((dst <<< ((src &&& m) % 9 - 1)) &&& 0x80 != 0)
        = decide (rotl 9 ((src &&& m) % 9) (cond cf 1 0 * 2 ^ 8 + dst) / 2 ^ 8 = 1) := by
      apply bool_eq_of_iff
      rw [bne_iff_ne, decide_eq_true_eq, hrcf]
      have h := shl_msb 8 ((src &&& m) % 9 - 1) dst (by omega)
      rw [show 8 - 1 - ((src &&& m) % 9 - 1) = 8 - (src &&& m) % 9 by omega] at h
      rw [show (2 : Nat) ^ (8 - 1) = 0x80 from rfl] at h
      exact h
    have hof := rotate_of_bridge 8
      (rotl 9 ((src &&& m) % 9) (cond cf 1 0 * 2 ^ 8 + dst) % 2 ^ 8)
      (dst <<< ((src &&& m) % 9 - 1)) (by omega) (Nat.mod_lt _ (by norm_num))
    rw [show (2 : Nat) ^ (8 - 1) = 0x80 from rfl] at hof
    simp only [setRotateResult]
    rw [rotPost, hiter, hres, hcf, hof, hcf]
    norm_num

/-- Translation of X86.fnRCLw (x86.js lines 1903-1924). -/
def fnRCLw (dst src m : Nat) (cf : Bool) : Nat × Option (Bool × Bool) :=
  if src = 0 then (dst, none)
  else
    let carry : Nat := cond cf 1 0
    let shift := (src &&& m) % 17
    if shift = 0 then (dst, some (setRotateResult dst (carry <<< 15) 0x8000))
    else
      let result := ((dst <<< shift) ||| (carry <<< (shift - 1)) ||| (dst >>> (17 - shift))) &&& 0xFFFF
      (result, some (setRotateResult result (dst <<< (shift - 1)) 0x8000))

/-- Translation of X86.fnRCRb (x86.js lines 1934-1955). -/
def fnRCRb (dst src m : Nat) (cf : Bool) : Nat × Option (Bool × Bool) :=
  if src = 0 then (dst, none)
  else
    let carry : Nat := cond cf 1 0
    let shift := (src &&& m) % 9
    if shift = 0 then (dst, some (setRotateResult dst (carry <<< 7) 0x80))
    else
      let result := ((dst >>> shift) ||| (carry <<< (8 - shift)) ||| (dst <<< (9 - shift))) &&& 0xFF
      (result, some (setRotateResult result (dst <<< (8 - shift)) 0x80))

/-- Translation of X86.fnRCRw (x86.js lines 1964-1986). -/
def fnRCRw (dst src m : Nat) (cf : Bool) : Nat × Option (Bool × Bool) :=
  if src = 0 then (dst, none)
  else
    let carry : Nat := cond cf 1 0
    let shift := (src &&& m) % 17
    if shift = 0 then (dst, some (setRotateResult dst (carry <<< 15) 0x8000))
    else
      let result := ((dst >>> shift) ||| (carry <<< (16 - shift)) ||| (dst <<< (17 - shift))) &&& 0xFFFF
      (result, some (setRotateResult result (dst <<< (16 - shift)) 0x8000))

lemma fnRCLw_spec (dst src m : Nat) (cf : Bool) (hv : dst < 0x10000) (hs : src ≠ 0) :
    fnRCLw dst src m cf
      = rotPost 16 (rotlN 17 (src &&& m) (cond cf 1 0 * 2 ^ 16 + dst) % 2 ^ 16)
          (decide (rotlN 17 (src &&& m) (cond cf 1 0 * 2 ^ 16 + dst) / 2 ^ 16 = 1)) := by
  have hc2 : (cond cf (1 : Nat) 0) < 2 := by cases cf <;> simp
  have hu : cond cf (1 : Nat) 0 * 2 ^ 16 + dst < 2 ^ 17 := by omega
  have hiter : rotlN 17 (src &&& m) (cond cf 1 0 * 2 ^ 16 + dst)
      = rotl 17 ((src &&& m) % 17) (cond cf 1 0 * 2 ^ 16 + dst) :=
    rotl_iterate_mod 17 (src &&& m) _ (by omega) hu
  unfold fnRCLw
  rw [if_neg hs]
  by_cases h0 : (src &&& m) % 17 = 0
  · rw [if_pos h0]
    have hr0 : rotl 17 ((src &&& m) % 17) (cond cf 1 0 * 2 ^ 16 + dst)
        = cond cf 1 0 * 2 ^ 16 + dst := by
      rw [h0]
      exact rotl_zero 17 _ hu
    have hmod : (cond cf (1 : Nat) 0 * 2 ^ 16 + dst) % 2 ^ 16 = dst := by
      have hgen : ∀ c : Nat, c < 2 → (c * 2 ^ 16 + dst) % 2 ^ 16 = dst := by
        intro c hc
        omega
      exact hgen _ hc2
    have hdiv : (cond cf (1 : Nat) 0 * 2 ^ 16 + dst) / 2 ^ 16 = cond cf 1 0 := by
      have hgen : ∀ c : Nat, c < 2 → (c * 2 ^ 16 + dst) / 2 ^ 16 = c := by
        intro c hc
        omega
      exact hgen _ hc2
    have hcf : ((cond cf (1 : Nat) 0 <<< 15) &&& 0x8000 != 0)
        = decide (cond cf (1 : Nat) 0 = 1) := by
      apply bool_eq_of_iff
      rw [bne_iff_ne, decide_eq_true_eq]
      have h := shl_msb 16 15 (cond cf 1 0) (by omega)
      norm_num at h ⊢
      rw [h]
      constructor <;> intro hx <;> omega
    have hof := rotate_of_bridge 16 dst (cond cf 1 0 <<< 15) (by omega) hv
    rw [show (2 : Nat) ^ (16 - 1) = 0x8000 from rfl] at hof
    rw [rotPost, hiter, hr0, hmod, hdiv, setRotateResult, hcf, hof, hcf]
    norm_num
  · rw [if_neg h0]
    have hs1 : 1 ≤ (src &&& m) % 17 := by omega
    have hs16 : (src &&& m) % 17 ≤ 16 := by
      have := Nat.mod_lt (src &&& m) (show 0 < 17 by norm_num)
      omega
    have hres : ((dst <<< ((src &&& m) % 17)) ||| (cond cf 1 0 <<< ((src &&& m) % 17 - 1))
          ||| (dst >>> (17 - (src &&& m) % 17))) &&& 0xFFFF
        = rotl 17 ((src &&& m) % 17) (cond cf 1 0 * 2 ^ 16 + dst) % 2 ^ 16 := by
      have h := rcl_code 16 ((src &&& m) % 17) dst (cond cf 1 0) hs1 hs16 hv hc2
      rw [show (16 : Nat) + 1 = 17 from rfl] at h
      rw [show ((2 : Nat) ^ 16 - 1) = 0xFFFF from rfl] at h
      exact h
    have hrcf : rotl 17 ((src &&& m) % 17) (cond cf 1 0 * 2 ^ 16 + dst) / 2 ^ 16
        = dst / 2 ^ (16 - (src &&& m) % 17) % 2 := by
      have h := rcl_cf 16 ((src &&& m) % 17) dst (cond cf 1 0) hs1 hs16 hv hc2
      rw [show (16 : Nat) + 1 = 17 from rfl] at h
      exact h
    have hcf : ((dst <<< ((src &&& m) % 17 - 1)) &&& 0x8000 != 0)
        = decide (rotl 17 ((src &&& m) % 17) (cond cf 1 0 * 2 ^ 16 + dst) / 2 ^ 16 = 1) := by
      apply bool_eq_of_iff
      rw [bne_iff_ne, decide_eq_true_eq, hrcf]
      have h := shl_msb 16 ((src &&& m) % 17 - 1) dst (by omega)
      rw [show 16 - 1 - ((src &&& m) % 17 - 1) = 16 - (src &&& m) % 17 by omega] at h
      rw [show (2 : Nat) ^ (16 - 1) = 0x8000 from rfl] at h
      exact h
    have hof := rotate_of_bridge 16
      (rotl 17 ((src &&& m) % 17) (cond cf 1 0 * 2 ^ 16 + dst) % 2 ^ 16)
      (dst <<< ((src &&& m) % 17 - 1)) (by omega) (Nat.mod_lt _ (by norm_num))
    rw [show (2 : Nat) ^ (16 - 1) = 0x8000 from rfl] at hof
    simp only [setRotateResult]
    rw [rotPost, hiter, hres, hcf, hof, hcf]
    norm_num

lemma fnRCRb_spec (dst src m : Nat) (cf : Bool) (hv : dst < 0x100) (hs : src ≠ 0) :
    fnRCRb dst src m cf
      = rotPost 8 (rotrN 9 (src &&& m) (cond cf 1 0 * 2 ^ 8 + dst) % 2 ^ 8)
          (decide (rotrN 9 (src &&& m) (cond cf 1 0 * 2 ^ 8 + dst) / 2 ^ 8 = 1)) := by
  have hc2 : (cond cf (1 : Nat) 0) < 2 := by cases cf <;> simp
  have hu : cond cf (1 : Nat) 0 * 2 ^ 8 + dst < 2 ^ 9 := by omega
  have hiter : rotrN 9 (src &&& m) (cond cf 1 0 * 2 ^ 8 + dst)
      = rotr 9 ((src &&& m) % 9) (cond cf 1 0 * 2 ^ 8 + dst) :=
    rotr_iterate_mod 9 (src &&& m) _ (by omega) hu
  unfold fnRCRb
  rw [if_neg hs]
  by_cases h0 : (src &&& m) % 9 = 0
  · rw [if_pos h0]
    have hr0 : rotr 9 ((src &&& m) % 9) (cond cf 1 0 * 2 ^ 8 + dst)
        = cond cf 1 0 * 2 ^ 8 + dst := by
      rw [h0]
      exact rotr_zero 9 _ hu
    have hmod : (cond cf (1 : Nat) 0 * 2 ^ 8 + dst) % 2 ^ 8 = dst := by
      have hgen : ∀ c : Nat, c < 2 → (c * 2 ^ 8 + dst) % 2 ^ 8 = dst := by
        intro c hc
        omega
      exact hgen _ hc2
    have hdiv : (cond cf (1 : Nat) 0 * 2 ^ 8 + dst) / 2 ^ 8 = cond cf 1 0 := by
      have hgen : ∀ c : Nat, c < 2 → (c * 2 ^ 8 + dst) / 2 ^ 8 = c := by
        intro c hc
        omega
      exact hgen _ hc2
    have hcf : ((cond cf (1 : Nat) 0 <<< 7) &&& 0x80 != 0) = decide (cond cf (1 : Nat) 0 = 1) := by
      apply bool_eq_of_iff
      rw [bne_iff_ne, decide_eq_true_eq]
      have h := shl_msb 8 7 (cond cf 1 0) (by omega)
      norm_num at h ⊢
      rw [h]
      constructor <;> intro hx <;> omega
    have hof := rotate_of_bridge 8 dst (cond cf 1 0 <<< 7) (by omega) hv
    rw [show (2 : Nat) ^ (8 - 1) = 0x80 from rfl] at hof
    rw [rotPost, hiter, hr0, hmod, hdiv, setRotateResult, hcf, hof, hcf]
    norm_num
  · rw [if_neg h0]
    have hs1 : 1 ≤ (src &&& m) % 9 := by omega
    have hs8 : (src &&& m) % 9 ≤ 8 := by
      have := Nat.mod_lt (src &&& m) (show 0 < 9 by norm_num)
      omega
    have hres : ((dst >>> ((src &&& m) % 9)) ||| (cond cf 1 0 <<< (8 - (src &&& m) % 9))
          ||| (dst <<< (9 - (src &&& m) % 9))) &&& 0xFF
        = rotr 9 ((src &&& m) % 9) (cond cf 1 0 * 2 ^ 8 + dst) % 2 ^ 8 := by
      have h := rcr_code 8 ((src &&& m) % 9) dst (cond cf 1 0) hs1 hs8 hv hc2
      rw [show (8 : Nat) + 1 = 9 from rfl] at h
      rw [show ((2 : Nat) ^ 8 - 1) = 0xFF from rfl] at h
      exact h
    have hrcf : rotr 9 ((src &&& m) % 9) (cond cf 1 0 * 2 ^ 8 + dst) / 2 ^ 8
        = dst / 2 ^ ((src &&& m) % 9 - 1) % 2 := by
      have h := rcr_cf 8 ((src &&& m) % 9) dst (cond cf 1 0) hs1 hs8 hv hc2
      rw [show (8 : Nat) + 1 = 9 from rfl] at h
      exact h
    have hcf : ((dst <<< (8 - (src &&& m) % 9)) &&& 0x80 != 0)
        = decide (rotr 9 ((src &&& m) % 9) (cond cf 1 0 * 2 ^ 8 + dst) / 2 ^ 8 = 1) := by
      apply bool_eq_of_iff
      rw [bne_iff_ne, decide_eq_true_eq, hrcf]
      have h := shl_msb 8 (8 - (src &&& m) % 9) dst (by omega)
      rw [show 8 - 1 - (8 - (src &&& m) % 9) = (src &&& m) % 9 - 1 by omega] at h
      rw [show (2 : Nat) ^ (8 - 1) = 0x80 from rfl] at h
      exact h
    have hof := rotate_of_bridge 8
      (rotr 9 ((src &&& m) % 9) (cond cf 1 0 * 2 ^ 8 + dst) % 2 ^ 8)
      (dst <<< (8 - (src &&& m) % 9)) (by omega) (Nat.mod_lt _ (by norm_num))
    rw [show (2 : Nat) ^ (8 - 1) = 0x80 from rfl] at hof
    simp only [setRotateResult]
    rw [rotPost, hiter, hres, hcf, hof, hcf]
    norm_num

lemma fnRCRw_spec (dst src m : Nat) (cf : Bool) (hv : dst < 0x10000) (hs : src ≠ 0) :
    fnRCRw dst src m cf
      = rotPost 16 (rotrN 17 (src &&& m) (cond cf 1 0 * 2 ^ 16 + dst) % 2 ^ 16)
          (decide (rotrN 17 (src &&& m) (cond cf 1 0 * 2 ^ 16 + dst) / 2 ^ 16 = 1)) := by
  have hc2 : (cond cf (1 : Nat) 0) < 2 := by cases cf <;> simp
  have hu : cond cf (1 : Nat) 0 * 2 ^ 16 + dst < 2 ^ 17 := by omega
  have hiter : rotrN 17 (src &&& m) (cond cf 1 0 * 2 ^ 16 + dst)
      = rotr 17 ((src &&& m) % 17) (cond cf 1 0 * 2 ^ 16 + dst) :=
    rotr_iterate_mod 17 (src &&& m) _ (by omega) hu
  unfold fnRCRw
  rw [if_neg hs]
  by_cases h0 : (src &&& m) % 17 = 0
  · rw [if_pos h0]
    have hr0 : rotr 17 ((src &&& m) % 17) (cond cf 1 0 * 2 ^ 16 + dst)
        = cond cf 1 0 * 2 ^ 16 + dst := by
      rw [h0]
      exact rotr_zero 17 _ hu
    have hmod : (cond cf (1 : Nat) 0 * 2 ^ 16 + dst) % 2 ^ 16 = dst := by
      have hgen : ∀ c : Nat, c < 2 → (c * 2 ^ 16 + dst) % 2 ^ 16 = dst := by
        intro c hc
        omega
      exact hgen _ hc2
    have hdiv : (cond cf (1 : Nat) 0 * 2 ^ 16 + dst) / 2 ^ 16 = cond cf 1 0 := by
      have hgen : ∀ c : Nat, c < 2 → (c * 2 ^ 16 + dst) / 2 ^ 16 = c := by
        intro c hc
        omega
      exact hgen _ hc2
    have hcf : ((cond cf (1 : Nat) 0 <<< 15) &&& 0x8000 != 0)
        = decide (cond cf (1 : Nat) 0 = 1) := by
      apply bool_eq_of_iff
      rw [bne_iff_ne, decide_eq_true_eq]
      have h := shl_msb 16 15 (cond cf 1 0) (by omega)
      norm_num at h ⊢
      rw [h]
      constructor <;> intro hx <;> omega
    have hof := rotate_of_bridge 16 dst (cond cf 1 0 <<< 15) (by omega) hv
    rw [show (2 : Nat) ^ (16 - 1) = 0x8000 from rfl] at hof
    rw [rotPost, hiter, hr0, hmod, hdiv, setRotateResult, hcf, hof, hcf]
    norm_num
  · rw [if_neg h0]
    have hs1 : 1 ≤ (src &&& m) % 17 := by omega
    have hs16 : (src &&& m) % 17 ≤ 16 := by
      have := Nat.mod_lt (src &&& m) (show 0 < 17 by norm_num)
      omega
    have hres : ((dst >>> ((src &&& m) % 17)) ||| (cond cf 1 0 <<< (16 - (src &&& m) % 17))
          ||| (dst <<< (17 - (src &&& m) % 17))) &&& 0xFFFF
        = rotr 17 ((src &&& m) % 17) (cond cf 1 0 * 2 ^ 16 + dst) % 2 ^ 16 := by
      have h := rcr_code 16 ((src &&& m) % 17) dst (cond cf 1 0) hs1 hs16 hv hc2
      rw [show (16 : Nat) + 1 = 17 from rfl] at h
      rw [show ((2 : Nat) ^ 16 - 1) = 0xFFFF from rfl] at h
      exact h
    have hrcf : rotr 17 ((src &&& m) % 17) (cond cf 1 0 * 2 ^ 16 + dst) / 2 ^ 16
        = dst / 2 ^ ((src &&& m) % 17 - 1) % 2 := by
      have h := rcr_cf 16 ((src &&& m) % 17) dst (cond cf 1 0) hs1 hs16 hv hc2
      rw [show (16 : Nat) + 1 = 17 from rfl] at h
      exact h
    have hcf : ((dst <<< (16 - (src &&& m) % 17)) &&& 0x8000 != 0)
        = decide (rotr 17 ((src &&& m) % 17) (cond cf 1 0 * 2 ^ 16 + dst) / 2 ^ 16 = 1) := by
      apply bool_eq_of_iff
      rw [bne_iff_ne, decide_eq_true_eq, hrcf]
      have h := shl_msb 16 (16 - (src &&& m) % 17) dst (by omega)
      rw [show 16 - 1 - (16 - (src &&& m) % 17) = (src &&& m) % 17 - 1 by omega] at h
      rw [show (2 : Nat) ^ (16 - 1) = 0x8000 from rfl] at h
      exact h
    have hof := rotate_of_bridge 16
      (rotr 17 ((src &&& m) % 17) (cond cf 1 0 * 2 ^ 16 + dst) % 2 ^ 16)
      (dst <<< (16 - (src &&& m) % 17)) (by omega) (Nat.mod_lt _ (by norm_num))
    rw [show (2 : Nat) ^ (16 - 1) = 0x8000 from rfl] at hof
    simp only [setRotateResult]
    rw [rotPost, hiter, hres, hcf, hof, hcf]
    norm_num

/-- Spec-reference architectural overflow flag for right rotates at count 1,
from the spec sentence "OF = (MSB XOR next-MSB) of the result": the exclusive
or of the two most significant bits of the result. -/
def archOFNextMSB (w r : Nat) : Bool := decide (r / 2 ^ (w - 1) % 2 ≠ r / 2 ^ (w - 2) % 2)

/-- C7: a rotate with count 0 leaves the flags untouched, and for every nonzero
count each of the eight rotate handlers stores the value given by the iterated
one-bit rotation reference model and sets CF to the last bit rotated out (the
low bit of the result for ROL, the high bit for ROR, bit w of the extended
carry+operand register for RCL/RCR) and OF to the XOR of the new CF with the
most significant bit of the result.  The through-carry counts are the masked
counts src & nShiftCountMask; the claim's parenthetical assertion that this OF
matches the architectural count=1 value fails for right rotates, see
`fnRORb_of_arch_count1_counterexample`. -/
theorem rotate_carry_overflow_postcondition (db dw src m : Nat) (cf : Bool)
    (hdb : db < 0x100) (hdw : dw < 0x10000) :
    (fnROLb db 0 = (db, none) ∧ fnRORb db 0 = (db, none)
      ∧ fnRCLb db 0 m cf = (db, none) ∧ fnRCRb db 0 m cf = (db, none)
      ∧ fnROLw dw 0 = (dw, none) ∧ fnRORw dw 0 = (dw, none)
      ∧ fnRCLw dw 0 m cf = (dw, none) ∧ fnRCRw dw 0 m cf = (dw, none))
    ∧ (src ≠ 0 →
      fnROLb db src = rotPost 8 (rotlN 8 src db) (decide (rotlN 8 src db % 2 = 1))
      ∧ fnRORb db src = rotPost 8 (rotrN 8 src db) (decide (rotrN 8 src db / 2 ^ 7 = 1))
      ∧ fnRCLb db src m cf
          = rotPost 8 (rotlN 9 (src &&& m) (cond cf 1 0 * 2 ^ 8 + db) % 2 ^ 8)
              (decide (rotlN 9 (src &&& m) (cond cf 1 0 * 2 ^ 8 + db) / 2 ^ 8 = 1))
      ∧ fnRCRb db src m cf
          = rotPost 8 (rotrN 9 (src &&& m) (cond cf 1 0 * 2 ^ 8 + db) % 2 ^ 8)
              (decide (rotrN 9 (src &&& m) (cond cf 1 0 * 2 ^ 8 + db) / 2 ^ 8 = 1))
      ∧ fnROLw dw src = rotPost 16 (rotlN 16 src dw) (decide (rotlN 16 src dw % 2 = 1))
      ∧ fnRORw dw src = rotPost 16 (rotrN 16 src dw) (decide (rotrN 16 src dw / 2 ^ 15 = 1))
      ∧ fnRCLw dw src m cf
          = rotPost 16 (rotlN 17 (src &&& m) (cond cf 1 0 * 2 ^ 16 + dw) % 2 ^ 16)
              (decide (rotlN 17 (src &&& m) (cond cf 1 0 * 2 ^ 16 + dw) / 2 ^ 16 = 1))
      ∧ fnRCRw dw src m cf
          = rotPost 16 (rotrN 17 (src &&& m) (cond cf 1 0 * 2 ^ 16 + dw) % 2 ^ 16)
              (decide (rotrN 17 (src &&& m) (cond cf 1 0 * 2 ^ 16 + dw) / 2 ^ 16 = 1))) :=
  ⟨⟨rfl, rfl, rfl, rfl, rfl, rfl, rfl, rfl⟩,
   fun hs => ⟨fnROLb_spec db src hdb hs, fnRORb_spec db src hdb hs,
     fnRCLb_spec db src m cf hdb hs, fnRCRb_spec db src m cf hdb hs,
     fnROLw_spec dw src hdw hs, fnRORw_spec dw src hdw hs,
     fnRCLw_spec dw src m cf hdw hs, fnRCRw_spec dw src m cf hdw hs⟩⟩

/-- C7 witness: the postcondition theorem instantiated at dst=0xA5/0xBEEF,
count 3, shift-count mask 0x1F, incoming carry set. -/
theorem rotate_carry_overflow_postcondition_witness :
    (0xA5 : Nat) < 0x100 ∧ (0xBEEF : Nat) < 0x10000 ∧
    ((fnROLb 0xA5 0 = (0xA5, none) ∧ fnRORb 0xA5 0 = (0xA5, none)
      ∧ fnRCLb 0xA5 0 0x1F true = (0xA5, none) ∧ fnRCRb 0xA5 0 0x1F true = (0xA5, none)
      ∧ fnROLw 0xBEEF 0 = (0xBEEF, none) ∧ fnRORw 0xBEEF 0 = (0xBEEF, none)
      ∧ fnRCLw 0xBEEF 0 0x1F true = (0xBEEF, none) ∧ fnRCRw 0xBEEF 0 0x1F true = (0xBEEF, none))
    ∧ ((3 : Nat) ≠ 0 →
      fnROLb 0xA5 3 = rotPost 8 (rotlN 8 3 0xA5) (decide (rotlN 8 3 0xA5 % 2 = 1))
      ∧ fnRORb 0xA5 3 = rotPost 8 (rotrN 8 3 0xA5) (decide (rotrN 8 3 0xA5 / 2 ^ 7 = 1))
      ∧ fnRCLb 0xA5 3 0x1F true
          = rotPost 8 (rotlN 9 (3 &&& 0x1F) (cond true 1 0 * 2 ^ 8 + 0xA5) % 2 ^ 8)
              (decide (rotlN 9 (3 &&& 0x1F) (cond true 1 0 * 2 ^ 8 + 0xA5) / 2 ^ 8 = 1))
      ∧ fnRCRb 0xA5 3 0x1F true
          = rotPost 8 (rotrN 9 (3 &&& 0x1F) (cond true 1 0 * 2 ^ 8 + 0xA5) % 2 ^ 8)
              (decide (rotrN 9 (3 &&& 0x1F) (cond true 1 0 * 2 ^ 8 + 0xA5) / 2 ^ 8 = 1))
      ∧ fnROLw 0xBEEF 3 = rotPost 16 (rotlN 16 3 0xBEEF) (decide (rotlN 16 3 0xBEEF % 2 = 1))
      ∧ fnRORw 0xBEEF 3
          = rotPost 16 (rotrN 16 3 0xBEEF) (decide (rotrN 16 3 0xBEEF / 2 ^ 15 = 1))
      ∧ fnRCLw 0xBEEF 3 0x1F true
          = rotPost 16 (rotlN 17 (3 &&& 0x1F) (cond true 1 0 * 2 ^ 16 + 0xBEEF) % 2 ^ 16)
              (decide (rotlN 17 (3 &&& 0x1F) (cond true 1 0 * 2 ^ 16 + 0xBEEF) / 2 ^ 16 = 1))
      ∧ fnRCRw 0xBEEF 3 0x1F true
          = rotPost 16 (rotrN 17 (3 &&& 0x1F) (cond true 1 0 * 2 ^ 16 + 0xBEEF) % 2 ^ 16)
              (decide (rotrN 17 (3 &&& 0x1F) (cond true 1 0 * 2 ^ 16 + 0xBEEF) / 2 ^ 16 = 1)))) :=
  ⟨by decide, by decide,
   rotate_carry_overflow_postcondition 0xA5 0xBEEF 3 0x1F true (by decide) (by decide)⟩

/-- C7 counterexample to the claim's parenthetical "(the value defined by the
architecture for count=1)": for ROR of 0x80 by 1 the emulator computes result
0x40 with CF=0 and OF=0 (its OF is always CF XOR MSB, which for ROR is
identically false), while the architecture defines OF for a count-1 right
rotate as MSB XOR next-MSB of the result, which is 1 here. -/
theorem fnRORb_of_arch_count1_counterexample :
    fnRORb 0x80 1 = (0x40, some (false, false))
      ∧ archOFNextMSB 8 (fnRORb 0x80 1).1 = true := by
  decide

end PCjs
